import Mathlib

/-!
# lidl: ELF header decoding and the ingest buffer

A shallow embedding of `src/elf_header.c` and `elf_parser.c`.

Conventions of the embedding.

* A byte (`uint8_t`) is a `Fin 256`.
* A `const uint8_t *` is an `Option (List uint8_t)`: `none` is the NULL
  pointer, `some d` is the readable region starting at the pointer.  `data[i]`
  is `d.getD i 0` and `data + k` is `d.drop k`.  Reading past the end of the
  region is undefined in C; the theorems that depend on a read assume that the
  region holds the bytes the caller announced.
* `uint16_t`, `uint32_t`, `uint64_t` and `size_t` values are natural numbers,
  reduced modulo `2^16`, `2^32`, `2^64` wherever the C type truncates.
* An out-parameter is passed in and returned together with the status, so
  that what a failing call leaves behind is visible.
-/

namespace Lidl

/-! ## Machine integers -/

/-- One byte. -/
abbrev uint8_t := Fin 256

/-- Conversion to `uint16_t`. -/
def u16 (n : Nat) : Nat := n % 2 ^ 16

/-- Conversion to `uint32_t`. -/
def u32 (n : Nat) : Nat := n % 2 ^ 32

/-- Conversion to `uint64_t`, which is also `size_t` on the 64-bit targets of the parser. -/
def u64 (n : Nat) : Nat := n % 2 ^ 64

/-- The byte `data[i]` widened to an unsigned integer. -/
def byte_at (data : List uint8_t) (i : Nat) : Nat := (data.getD i 0).val

/-! ## elf_header.h -/

def ELF_HEADER_32_SIZE : Nat := 52
def ELF_HEADER_64_SIZE : Nat := 64

def ET_NONE : Nat := 0
def ET_REL : Nat := 1
def ET_EXEC : Nat := 2
def ET_DYN : Nat := 3
def ET_CORE : Nat := 4

def ELFCLASS32 : Int := 1
def ELFCLASS64 : Int := 2

def ELFDATA2LSB : Int := 1
def ELFDATA2MSB : Int := 2

def EV_NONE : Int := 0
def EV_CURRENT : Int := 1

/-- The 64-bit ELF file header record. -/
structure elf_header_t where
  e_ident : List uint8_t
  e_type : Nat
  e_machine : Nat
  e_version : Nat
  e_entry : Nat
  e_phoff : Nat
  e_shoff : Nat
  e_flags : Nat
  e_ehsize : Nat
  e_phentsize : Nat
  e_phnum : Nat
  e_shentsize : Nat
  e_shnum : Nat
  e_shstrndx : Nat
  deriving DecidableEq, Repr

/-- A header record with every byte cleared, as `memset(&hdr, 0, sizeof hdr)` leaves it. -/
def elf_header_zero : elf_header_t :=
  { e_ident := List.replicate 16 0, e_type := 0, e_machine := 0, e_version := 0, e_entry := 0,
    e_phoff := 0, e_shoff := 0, e_flags := 0, e_ehsize := 0, e_phentsize := 0, e_phnum := 0,
    e_shentsize := 0, e_shnum := 0, e_shstrndx := 0 }

/-- Status codes of the header decoder. -/
inductive elf_hdr_status_t where
  | ELF_HDR_OK
  | ELF_HDR_ERR_MAGIC
  | ELF_HDR_ERR_CLASS
  | ELF_HDR_ERR_ENCODING
  | ELF_HDR_ERR_VERSION
  | ELF_HDR_ERR_TYPE
  | ELF_HDR_ERR_MACHINE
  | ELF_HDR_ERR_SIZE
  deriving DecidableEq, Repr

open elf_hdr_status_t

/-- The integer value of a status code. -/
def elf_hdr_status_t.code : elf_hdr_status_t → Int
  | ELF_HDR_OK => 0
  | ELF_HDR_ERR_MAGIC => 1
  | ELF_HDR_ERR_CLASS => 2
  | ELF_HDR_ERR_ENCODING => 3
  | ELF_HDR_ERR_VERSION => 4
  | ELF_HDR_ERR_TYPE => 5
  | ELF_HDR_ERR_MACHINE => 6
  | ELF_HDR_ERR_SIZE => 7

/-! ## elf_header.c: accessors -/

def elf_header_validate_magic (data : Option (List uint8_t)) : Bool :=
  match data with
  | none => false
  | some d =>
    byte_at d 0 == 0x7F && byte_at d 1 == 0x45 && byte_at d 2 == 0x4C && byte_at d 3 == 0x46

def elf_header_get_class (data : Option (List uint8_t)) : Int :=
  match data with
  | none => -1
  | some d => (byte_at d 4 : Int)

def elf_header_get_encoding (data : Option (List uint8_t)) : Int :=
  match data with
  | none => -1
  | some d => (byte_at d 5 : Int)

def elf_header_get_version (data : Option (List uint8_t)) : Int :=
  match data with
  | none => -1
  | some d => (byte_at d 6 : Int)

def elf_header_is_64bit (data : Option (List uint8_t)) : Bool :=
  elf_header_get_class data == ELFCLASS64

def elf_header_is_little_endian (data : Option (List uint8_t)) : Bool :=
  elf_header_get_encoding data == ELFDATA2LSB

/-! ## elf_header.c: byte-order conversion -/

def read_u16_le (data : List uint8_t) : Nat :=
  u16 (byte_at data 0 ||| (byte_at data 1 <<< 8))

def read_u16_be (data : List uint8_t) : Nat :=
  u16 ((byte_at data 0 <<< 8) ||| byte_at data 1)

def read_u32_le (data : List uint8_t) : Nat :=
  byte_at data 0 ||| u32 (byte_at data 1 <<< 8) |||
    u32 (byte_at data 2 <<< 16) ||| u32 (byte_at data 3 <<< 24)

def read_u32_be (data : List uint8_t) : Nat :=
  u32 (byte_at data 0 <<< 24) ||| u32 (byte_at data 1 <<< 16) |||
    u32 (byte_at data 2 <<< 8) ||| byte_at data 3

def read_u64_le (data : List uint8_t) : Nat :=
  byte_at data 0 ||| u64 (byte_at data 1 <<< 8) |||
    u64 (byte_at data 2 <<< 16) ||| u64 (byte_at data 3 <<< 24) |||
    u64 (byte_at data 4 <<< 32) ||| u64 (byte_at data 5 <<< 40) |||
    u64 (byte_at data 6 <<< 48) ||| u64 (byte_at data 7 <<< 56)

def read_u64_be (data : List uint8_t) : Nat :=
  u64 (byte_at data 0 <<< 56) ||| u64 (byte_at data 1 <<< 48) |||
    u64 (byte_at data 2 <<< 40) ||| u64 (byte_at data 3 <<< 32) |||
    u64 (byte_at data 4 <<< 24) ||| u64 (byte_at data 5 <<< 16) |||
    u64 (byte_at data 6 <<< 8) ||| byte_at data 7

/-! ## elf_header.c: the decoder -/

/-- The main decoder.  The result pairs the returned status with the state of `*out`
after the call. -/
def elf_header_parse (data : Option (List uint8_t)) (size : Nat) (out : Option elf_header_t) :
    elf_hdr_status_t × Option elf_header_t :=
  match data, out with
  | some d, some o =>
    if size < ELF_HEADER_64_SIZE then (ELF_HDR_ERR_SIZE, some o)
    else if byte_at d 0 ≠ 0x7F ∨ byte_at d 1 ≠ 0x45 ∨ byte_at d 2 ≠ 0x4C ∨ byte_at d 3 ≠ 0x46 then
      (ELF_HDR_ERR_MAGIC, some o)
    else
      let class_ := elf_header_get_class (some d)
      let encoding := elf_header_get_encoding (some d)
      let version := elf_header_get_version (some d)
      if class_ ≠ ELFCLASS64 then (ELF_HDR_ERR_CLASS, some o)
      else if version ≠ EV_CURRENT then (ELF_HDR_ERR_VERSION, some o)
      else
        let o := { o with e_ident := d.take 16 }
        let read_u16 := if encoding = ELFDATA2LSB then read_u16_le else read_u16_be
        let read_u32 := if encoding = ELFDATA2LSB then read_u32_le else read_u32_be
        let read_u64 := if encoding = ELFDATA2LSB then read_u64_le else read_u64_be
        let o := { o with e_type := read_u16 (d.drop 16) }
        let o := { o with e_machine := read_u16 (d.drop 18) }
        if o.e_type ≠ ET_REL ∧ o.e_type ≠ ET_EXEC ∧ o.e_type ≠ ET_DYN ∧ o.e_type ≠ ET_CORE then
          (ELF_HDR_ERR_TYPE, some o)
        else
          let o := { o with e_version := read_u32 (d.drop 20) }
          let o := { o with e_entry := read_u64 (d.drop 24) }
          let o := { o with e_phoff := read_u64 (d.drop 32) }
          let o := { o with e_shoff := read_u64 (d.drop 40) }
          let o := { o with e_flags := read_u32 (d.drop 48) }
          let o := { o with e_ehsize := read_u16 (d.drop 52) }
          let o := { o with e_phentsize := read_u16 (d.drop 54) }
          let o := { o with e_phnum := read_u16 (d.drop 56) }
          let o := { o with e_shentsize := read_u16 (d.drop 58) }
          let o := { o with e_shnum := read_u16 (d.drop 60) }
          let o := { o with e_shstrndx := read_u16 (d.drop 62) }
          if encoding ≠ ELFDATA2LSB ∧ encoding ≠ ELFDATA2MSB then (ELF_HDR_ERR_ENCODING, some o)
          else (ELF_HDR_OK, some o)
  | _, _ => (ELF_HDR_ERR_SIZE, out)

/-- The handcrafted header of the specification's scenario: magic, class 2, encoding 1,
version 1, type 2 (executable), machine 62 (x86-64), everything else zero. -/
def sample_header : List uint8_t :=
  [0x7F, 0x45, 0x4C, 0x46, 2, 1, 1, 0, 0, 0, 0, 0, 0, 0, 0, 0,
   2, 0, 62, 0] ++ List.replicate 44 0

/-- The sample header with the byte at offset `i` replaced by `b`. -/
def header_with (i : Nat) (b : uint8_t) : List uint8_t := sample_header.set i b

/-- A header with valid magic, class and version, encoding byte 0, and the type bytes
`02 00`: the type reads 2 (executable) little-endian and 512 big-endian. -/
def unknown_encoding_header : List uint8_t := header_with 5 0

/-! ## The specification's reading of a byte range -/

/-- The bytes `data[off .. off + n)`. -/
def byte_range (data : List uint8_t) (off n : Nat) : List uint8_t := (data.drop off).take n

/-- Unsigned little-endian value of a byte string: the first byte is the least significant. -/
def le_value : List uint8_t → Nat
  | [] => 0
  | b :: bs => b.val + 256 * le_value bs

/-- Unsigned big-endian value of a byte string: the first byte is the most significant. -/
def be_value (bs : List uint8_t) : Nat := bs.foldl (fun acc b => 256 * acc + b.val) 0

/-- The header the specification describes for the input `data`: the identification block
is the first 16 bytes and every other field is the value `val` of its byte range. -/
def spec_header (val : List uint8_t → Nat) (data : List uint8_t) : elf_header_t :=
  { e_ident := byte_range data 0 16
    e_type := val (byte_range data 16 2)
    e_machine := val (byte_range data 18 2)
    e_version := val (byte_range data 20 4)
    e_entry := val (byte_range data 24 8)
    e_phoff := val (byte_range data 32 8)
    e_shoff := val (byte_range data 40 8)
    e_flags := val (byte_range data 48 4)
    e_ehsize := val (byte_range data 52 2)
    e_phentsize := val (byte_range data 54 2)
    e_phnum := val (byte_range data 56 2)
    e_shentsize := val (byte_range data 58 2)
    e_shnum := val (byte_range data 60 2)
    e_shstrndx := val (byte_range data 62 2) }

/-- The ELF magic `0x7F 'E' 'L' 'F'`. -/
def elf_magic : List uint8_t := [0x7F, 0x45, 0x4C, 0x46]

/-- The object type is one of the four recognised kinds. -/
def recognised_type (t : Nat) : Prop := t = ET_REL ∨ t = ET_EXEC ∨ t = ET_DYN ∨ t = ET_CORE

instance (t : Nat) : Decidable (recognised_type t) := by unfold recognised_type; infer_instance

/-! ## elf_parser.h and elf_parser.c: the ingest buffer

A function that takes an `elf_buffer_t *` returns, next to its C result, the buffer as the
call leaves it.  `size_t` arithmetic is reduced with `u64`. -/

/-- Status codes of the buffer operations. -/
inductive elf_status_t where
  | ELF_OK
  | ELF_ERR_OPEN
  | ELF_ERR_READ
  | ELF_ERR_INVALID
  | ELF_ERR_ALLOC
  | ELF_ERR_EOF
  deriving DecidableEq, Repr

open elf_status_t

/-- The buffer record.  `data` is the owned allocation (its bytes up to `capacity`, of which
the first `size` have been written) and `pos` is the read cursor. -/
structure elf_buffer_t where
  data : List uint8_t
  size : Nat
  capacity : Nat
  pos : Nat
  deriving DecidableEq, Repr

def READ_CHUNK_SIZE : Nat := 4096
def INITIAL_CAPACITY : Nat := 65536
def MAX : Nat := 1024 * 1024 * 1024

/-- The library call `memcpy(dst, src, n)`: the first `n` bytes of `dst` are replaced by the
first `n` bytes of `src`.  Where `src` holds fewer than `n` bytes the C call reads outside
the source object; the model then copies the bytes that exist. -/
def memcpy (dst src : List uint8_t) (n : Nat) : List uint8_t := src.take n ++ dst.drop n

/-- Creation.  `struct_ok` tells whether the allocation of the record succeeded and `storage`
is what `malloc(capacity)` returned (`none` for NULL, otherwise the uninitialised bytes). -/
def elf_buffer_new (struct_ok : Bool) (storage : Option (List uint8_t)) (capacity : Nat) :
    Option elf_buffer_t :=
  if !struct_ok then none
  else
    let capacity := if capacity = 0 then INITIAL_CAPACITY else capacity
    match storage with
    | none => none
    | some data => some { data := data, size := 0, capacity := capacity, pos := 0 }

/-- The doubling loop of `elf_buffer_expand`, run for at most `fuel` tests of the loop
condition.  `none`: the loop is still running when the fuel is spent; `some none`: the loop
left the function through `return ELF_ERR_READ`; `some (some c)`: the loop ended with
`new_capacity = c`. -/
def expand_loop (target : Nat) : Nat → Nat → Option (Option Nat)
  | 0, _ => none
  | fuel + 1, new_capacity =>
    if new_capacity < target then
      if new_capacity > MAX then some none
      else expand_loop target fuel (u64 (new_capacity * 2))
    else some (some new_capacity)

/-- Growth.  `heap` is the answer of `realloc`: `none` for NULL, otherwise the indeterminate
bytes that follow the preserved contents in the new block.  The result is `none` when the
doubling loop does not finish within `fuel` steps. -/
def elf_buffer_expand (fuel : Nat) (heap : Option (List uint8_t)) (buf : elf_buffer_t)
    (needed : Nat) : Option (elf_status_t × elf_buffer_t) :=
  match expand_loop (u64 (buf.size + needed)) fuel buf.capacity with
  | none => none
  | some none => some (ELF_ERR_READ, buf)
  | some (some new_capacity) =>
    match heap with
    | none => some (ELF_ERR_ALLOC, buf)
    | some fresh =>
      some (ELF_OK, { buf with data := (buf.data ++ fresh).take new_capacity
                               capacity := new_capacity })

/-- The append step shared by `elf_read_fd` and `elf_read_stream`: the body of their read
loop for one chunk of `bytes_read = chunk.length` bytes. -/
def elf_read_append (fuel : Nat) (heap : Option (List uint8_t)) (buf : elf_buffer_t)
    (chunk : List uint8_t) : Option (elf_status_t × elf_buffer_t) :=
  let bytes_read := chunk.length
  let grown :=
    if u64 (buf.size + bytes_read) > buf.capacity then elf_buffer_expand fuel heap buf bytes_read
    else some (ELF_OK, buf)
  match grown with
  | none => none
  | some (ELF_OK, buf) =>
    some (ELF_OK, { buf with data := buf.data.take buf.size ++
                                      memcpy (buf.data.drop buf.size) chunk bytes_read
                             size := u64 (buf.size + bytes_read) })
  | some (status, buf) => some (status, buf)

def elf_read_byte (buf : elf_buffer_t) (out : uint8_t) : elf_status_t × elf_buffer_t × uint8_t :=
  if buf.pos ≥ buf.size then (ELF_ERR_EOF, buf, out)
  else (ELF_OK, { buf with pos := u64 (buf.pos + 1) }, buf.data.getD buf.pos 0)

def elf_read_bytes (buf : elf_buffer_t) (out : List uint8_t) (count : Nat) :
    elf_status_t × elf_buffer_t × List uint8_t :=
  if buf.pos > u64 (buf.size + count) then (ELF_ERR_EOF, buf, out)
  else (ELF_OK, { buf with pos := u64 (buf.pos + count) }, memcpy out (buf.data.drop buf.pos) count)

def elf_peek_byte (buf : elf_buffer_t) (out : uint8_t) : elf_status_t × elf_buffer_t × uint8_t :=
  if buf.pos ≥ buf.size then (ELF_ERR_EOF, buf, out)
  else (ELF_OK, buf, buf.data.getD buf.pos 0)

def elf_buffer_reset (buf : elf_buffer_t) : elf_buffer_t := { buf with pos := 0 }

def elf_buffer_seek (buf : elf_buffer_t) (offset : Nat) : elf_buffer_t :=
  if offset ≤ buf.size then { buf with pos := offset } else buf

def elf_buffer_tell (buf : elf_buffer_t) : Nat × elf_buffer_t := (buf.pos, buf)

/-- The query `elf_buffer_remaining`.  The first component is the returned value, `none`
when control reaches the end of the function body without a `return`; the second is the
buffer record after the call, `none` when the call has released it with `free(buf)`. -/
def elf_buffer_remaining (buf : elf_buffer_t) : Option Nat × Option elf_buffer_t :=
  if buf.pos ≥ buf.size then (some 0, some buf)
  else (none, none)

/-- The buffer invariant of the data model: `pos ≤ size ≤ capacity`. -/
def buffer_invariant (buf : elf_buffer_t) : Prop := buf.pos ≤ buf.size ∧ buf.size ≤ buf.capacity

instance (buf : elf_buffer_t) : Decidable (buffer_invariant buf) := by
  unfold buffer_invariant; infer_instance

/-- A buffer of capacity 8 holding the four magic bytes, with the cursor after the second. -/
def magic_buffer : elf_buffer_t :=
  { data := [0x7F, 0x45, 0x4C, 0x46, 0xAA, 0xBB, 0xCC, 0xDD], size := 4, capacity := 8, pos := 2 }

/-- The buffer `elf_buffer_new(16)` returns when both allocations succeed on zeroed memory:
empty, with the cursor at 0. -/
def fresh_buffer : elf_buffer_t :=
  { data := List.replicate 16 0, size := 0, capacity := 16, pos := 0 }

/-- The magic test of `elf_validate_magic`, together with the indices of `buf->data` the
call reads, in the order it reads them (the `||` chain stops at the first mismatch). -/
def elf_validate_magic_trace (buf : Option elf_buffer_t) : elf_status_t × List Nat :=
  match buf with
  | none => (ELF_ERR_INVALID, [])
  | some b =>
    if b.size < 4 then (ELF_ERR_INVALID, [])
    else if byte_at b.data 0 ≠ 0x7F then (ELF_ERR_INVALID, [0])
    else if byte_at b.data 1 ≠ 0x45 then (ELF_ERR_INVALID, [0, 1])
    else if byte_at b.data 2 ≠ 0x4C then (ELF_ERR_INVALID, [0, 1, 2])
    else if byte_at b.data 3 ≠ 0x46 then (ELF_ERR_INVALID, [0, 1, 2, 3])
    else (ELF_OK, [0, 1, 2, 3])

def elf_validate_magic (buf : Option elf_buffer_t) : elf_status_t :=
  (elf_validate_magic_trace buf).1

def elf_is_elf (buf : Option elf_buffer_t) : Bool := elf_validate_magic buf == ELF_OK

def PT_NULL : Nat := 0
def PT_LOAD : Nat := 1
def PT_DYNAMIC : Nat := 2
def PT_HIPROC : Nat := 0x7fffffff

/-- The 64-bit program header record. -/
structure phdr_t where
  p_type : Nat
  p_flags : Nat
  p_offset : Nat
  p_vaddr : Nat
  p_paddr : Nat
  p_filesz : Nat
  p_memsz : Nat
  p_align : Nat
  deriving DecidableEq, Repr

/-- Status codes of the program header decoder. -/
inductive phdr_status_t where
  | PHDR_OK
  | PHDR_ERR_SIZE
  | PHDR_ERR_TYPE
  | PHDR_ERR_OFFSET
  | PHDR_ERR_ALIGN
  | PHDR_ERR_INVALID
  deriving DecidableEq, Repr

open phdr_status_t

def PHDR_SIZE_64 : Nat := 56

/-- The `size_t` difference `a - b`, which wraps around when `b > a`. -/
def sub64 (a b : Nat) : Nat := (a + 2 ^ 64 - b % 2 ^ 64) % 2 ^ 64

/-- Decoder of one entry.  `phdr.c` has its own static copies of `read_u32_le` and
`read_u64_le`, with the same bodies as those of `elf_header.c`; both are the definitions
above.  The byte order is fixed to little-endian. -/
def phdr_parse (data : Option (List uint8_t)) (size : Nat) (out : Option phdr_t) :
    phdr_status_t × Option phdr_t :=
  match data, out with
  | some d, some o =>
    if size < PHDR_SIZE_64 then (PHDR_ERR_SIZE, some o)
    else
      let read_u32 := read_u32_le
      let read_u64 := read_u64_le
      let o := { o with p_type := read_u32 (d.drop 0) }
      let o := { o with p_flags := read_u32 (d.drop 4) }
      let o := { o with p_offset := read_u64 (d.drop 8) }
      let o := { o with p_vaddr := read_u64 (d.drop 16) }
      let o := { o with p_paddr := read_u64 (d.drop 24) }
      let o := { o with p_filesz := read_u64 (d.drop 32) }
      let o := { o with p_memsz := read_u64 (d.drop 40) }
      let o := { o with p_align := read_u64 (d.drop 48) }
      (PHDR_OK, some o)
  | _, _ => (PHDR_ERR_SIZE, out)

def phdr_validate (phdr : Option phdr_t) : phdr_status_t :=
  match phdr with
  | none => PHDR_ERR_INVALID
  | some p =>
    if p.p_filesz > p.p_memsz then PHDR_ERR_SIZE
    else if p.p_type > PT_HIPROC then PHDR_ERR_TYPE
    else PHDR_OK

/-- The `for` loop of `phdr_parse_all`.  The first numeric argument is the number of
iterations left (`phdr_count - i`), the second is `i`, and `phdrs` holds the entries
`phdrs[0 .. i)` written so far; `slot` is the indeterminate content of a freshly allocated
entry.  The result is the status the loop ends with and the entries written. -/
def phdr_parse_loop (buf : elf_buffer_t) (phdr_offset phdr_entsize : Nat) (slot : phdr_t) :
    Nat → Nat → List phdr_t → phdr_status_t × List phdr_t
  | 0, _, phdrs => (PHDR_OK, phdrs)
  | n + 1, i, phdrs =>
    let offset := u64 (phdr_offset + u64 (i * phdr_entsize))
    if u64 (offset + PHDR_SIZE_64) > buf.size then (PHDR_ERR_OFFSET, phdrs)
    else
      match phdr_parse (some (buf.data.drop offset)) (sub64 buf.size offset) (some slot) with
      | (PHDR_OK, some p) =>
        let val_status := phdr_validate (some p)
        if val_status ≠ PHDR_OK then (val_status, phdrs ++ [p])
        else phdr_parse_loop buf phdr_offset phdr_entsize slot n (i + 1) (phdrs ++ [p])
      | (status, _) => (status, phdrs)

/-- Decoder of the whole table.  `storage` is the answer of `malloc`: `none` for NULL,
otherwise the indeterminate content of the new entries.  `out_phdrs` and `out_count` are the
two out-parameters (`none` for a NULL pointer, otherwise what they point at; an array pointer
is `none` while it points at no array); they are returned as the call leaves them.  The
`data` field of a buffer record is never NULL in this model, so the test `!buf->data` has no
counterpart.  The result is `none` when the call evaluates `buf->size / phdr_entsize` with
`phdr_entsize = 0`, which has no defined behaviour in C. -/
def phdr_parse_all (storage : Option phdr_t) (buf : Option elf_buffer_t)
    (hdr : Option elf_header_t) (out_phdrs : Option (Option (List phdr_t)))
    (out_count : Option Nat) :
    Option (phdr_status_t × Option (Option (List phdr_t)) × Option Nat) :=
  match buf, hdr, out_phdrs, out_count with
  | some b, some h, some _, some _ =>
    let phdr_count := h.e_phnum
    let phdr_offset := h.e_phoff
    let phdr_entsize := h.e_phentsize
    if phdr_offset > b.size then some (PHDR_ERR_OFFSET, out_phdrs, out_count)
    else if phdr_entsize = 0 then none
    else if phdr_count > b.size / phdr_entsize then some (PHDR_ERR_OFFSET, out_phdrs, out_count)
    else if u64 (phdr_offset + u64 (phdr_count * phdr_entsize)) > b.size then
      some (PHDR_ERR_OFFSET, out_phdrs, out_count)
    else if phdr_entsize ≠ PHDR_SIZE_64 then some (PHDR_ERR_SIZE, out_phdrs, out_count)
    else
      match storage with
      | none => some (PHDR_ERR_INVALID, out_phdrs, out_count)
      | some slot =>
        match phdr_parse_loop b phdr_offset phdr_entsize slot phdr_count 0 [] with
        | (PHDR_OK, phdrs) => some (PHDR_OK, some (some phdrs), some phdr_count)
        | (status, _) => some (status, out_phdrs, out_count)
  | _, _, _, _ => some (PHDR_ERR_INVALID, out_phdrs, out_count)

/-! ## The specification's reading of the program header table -/

/-- The entry the specification describes for the 56 bytes at offset `off` of `data`:
little-endian `u32` at `+0`, `+4` and little-endian `u64` at `+8 .. +48`. -/
def spec_phdr (data : List uint8_t) (off : Nat) : phdr_t :=
  { p_type := le_value (byte_range data off 4)
    p_flags := le_value (byte_range data (off + 4) 4)
    p_offset := le_value (byte_range data (off + 8) 8)
    p_vaddr := le_value (byte_range data (off + 16) 8)
    p_paddr := le_value (byte_range data (off + 24) 8)
    p_filesz := le_value (byte_range data (off + 32) 8)
    p_memsz := le_value (byte_range data (off + 40) 8)
    p_align := le_value (byte_range data (off + 48) 8) }

/-- The table in on-disk order: entry `i` is read at `phoff + 56 * i`. -/
def spec_table (data : List uint8_t) (phoff phnum : Nat) : List phdr_t :=
  (List.range phnum).map (fun i => spec_phdr data (phoff + 56 * i))

/-- The status the specification assigns to a table: that of the first entry, in table
order, that is not valid (`PHDR_ERR_SIZE` if its `p_filesz` exceeds its `p_memsz`, else
`PHDR_ERR_TYPE`), and `PHDR_OK` if there is none. -/
def table_status : List phdr_t → phdr_status_t
  | [] => PHDR_OK
  | p :: rest =>
    if p.p_filesz > p.p_memsz then PHDR_ERR_SIZE
    else if p.p_type > 0x7fffffff then PHDR_ERR_TYPE
    else table_status rest

/-- An entry is structurally valid. -/
def phdr_entry_ok (p : phdr_t) : Prop := p.p_filesz ≤ p.p_memsz ∧ p.p_type ≤ 0x7fffffff

instance (p : phdr_t) : Decidable (phdr_entry_ok p) := by
  unfold phdr_entry_ok; infer_instance

/-- An entry record with every byte cleared. -/
def phdr_zero : phdr_t :=
  { p_type := 0, p_flags := 0, p_offset := 0, p_vaddr := 0, p_paddr := 0, p_filesz := 0,
    p_memsz := 0, p_align := 0 }

/-- The `n`-byte little-endian encoding of `v`. -/
def le_bytes : Nat → Nat → List uint8_t
  | 0, _ => []
  | n + 1, v => Fin.ofNat (v % 256) :: le_bytes n (v / 256)

/-- The 56 bytes of an entry with the given type, file size and memory size, the other
fields zero. -/
def entry_bytes (p_type p_filesz p_memsz : Nat) : List uint8_t :=
  le_bytes 4 p_type ++ le_bytes 4 0 ++ le_bytes 8 0 ++ le_bytes 8 0 ++ le_bytes 8 0 ++
    le_bytes 8 p_filesz ++ le_bytes 8 p_memsz ++ le_bytes 8 0

/-- The sample header with `e_phoff = 64`, `e_phentsize = 56` and `e_phnum = n`. -/
def table_header (n : uint8_t) : List uint8_t :=
  ((sample_header.set 32 64).set 54 56).set 56 n

/-- A buffer holding exactly `bytes`. -/
def buffer_of (bytes : List uint8_t) : elf_buffer_t :=
  { data := bytes, size := bytes.length, capacity := bytes.length, pos := 0 }

/-- The header record `elf_header_parse` produces from `bytes`, the zero record if it
rejects them. -/
def parsed_header (bytes : List uint8_t) : elf_header_t :=
  match elf_header_parse (some bytes) bytes.length (some elf_header_zero) with
  | (ELF_HDR_OK, some h) => h
  | _ => elf_header_zero

/-- A file with two entries: a loadable segment with `p_filesz = 16`, `p_memsz = 32`, then a
dynamic segment with `p_filesz = 8`, `p_memsz = 8`. -/
def good_file : List uint8_t := table_header 2 ++ entry_bytes 1 16 32 ++ entry_bytes 2 8 8

/-- A file with two entries: a valid loadable segment, then an entry with `p_filesz = 100`
and `p_memsz = 50`. -/
def bad_size_file : List uint8_t := table_header 2 ++ entry_bytes 1 16 32 ++ entry_bytes 1 100 50

/-! ## The overridable fallbacks and the duplicate readers

`elf_header.c` and `phdr.c` export weak symbols that an assembly implementation may replace;
the definitions below are their C bodies.  `phdr.c` and `test.c` each define static readers
of their own, under the names used in `elf_header.c`; they live in the namespaces `phdr_c`
and `test_c`. -/

def elf_header_parse_fast (data : Option (List uint8_t)) (size : Nat)
    (out : Option elf_header_t) : elf_hdr_status_t × Option elf_header_t :=
  elf_header_parse data size out

def elf_read_u64_le (data : List uint8_t) : Nat := read_u64_le data
def elf_read_u64_be (data : List uint8_t) : Nat := read_u64_be data
def elf_read_u32_le (data : List uint8_t) : Nat := read_u32_le data
def elf_read_u32_be (data : List uint8_t) : Nat := read_u32_be data
def elf_read_u16_le (data : List uint8_t) : Nat := read_u16_le data
def elf_read_u16_be (data : List uint8_t) : Nat := read_u16_be data

namespace phdr_c

def read_u32_le (data : List uint8_t) : Nat :=
  byte_at data 0 ||| u32 (byte_at data 1 <<< 8) |||
    u32 (byte_at data 2 <<< 16) ||| u32 (byte_at data 3 <<< 24)

def read_u32_be (data : List uint8_t) : Nat :=
  u32 (byte_at data 0 <<< 24) ||| u32 (byte_at data 1 <<< 16) |||
    u32 (byte_at data 2 <<< 8) ||| byte_at data 3

def read_u64_le (data : List uint8_t) : Nat :=
  byte_at data 0 ||| u64 (byte_at data 1 <<< 8) |||
    u64 (byte_at data 2 <<< 16) ||| u64 (byte_at data 3 <<< 24) |||
    u64 (byte_at data 4 <<< 32) ||| u64 (byte_at data 5 <<< 40) |||
    u64 (byte_at data 6 <<< 48) ||| u64 (byte_at data 7 <<< 56)

def read_u64_be (data : List uint8_t) : Nat :=
  u64 (byte_at data 0 <<< 56) ||| u64 (byte_at data 1 <<< 48) |||
    u64 (byte_at data 2 <<< 40) ||| u64 (byte_at data 3 <<< 32) |||
    u64 (byte_at data 4 <<< 24) ||| u64 (byte_at data 5 <<< 16) |||
    u64 (byte_at data 6 <<< 8) ||| byte_at data 7

end phdr_c

def phdr_parse_fast (data : Option (List uint8_t)) (size : Nat) (out : Option phdr_t) :
    phdr_status_t × Option phdr_t :=
  phdr_parse data size out

def phdr_read_u32_le (data : List uint8_t) : Nat := phdr_c.read_u32_le data
def phdr_read_u32_be (data : List uint8_t) : Nat := phdr_c.read_u32_be data
def phdr_read_u64_le (data : List uint8_t) : Nat := phdr_c.read_u64_le data
def phdr_read_u64_be (data : List uint8_t) : Nat := phdr_c.read_u64_be data

/-! ## test.c: the harness decoder

The 16- and 32-bit readers of `test.c` have no casts: the bytes are promoted to `int`, the
shifts and ors are done in `int`, and the result is converted to the return type.  For a
byte of `0x80` or more shifted by 24 the `int` shift leaves the range of `int`, which the C
standard does not define; the model takes the two's complement bit pattern that the
compilers deliver, so that the conversion to `uint32_t` is the reduction modulo `2^32`.  The
`printf` calls of the harness are not modelled. -/

namespace test_c

def read_u16_le (d : List uint8_t) : Nat := u16 (byte_at d 0 ||| (byte_at d 1 <<< 8))

def read_u32_le (d : List uint8_t) : Nat :=
  u32 (byte_at d 0 ||| (byte_at d 1 <<< 8) ||| (byte_at d 2 <<< 16) ||| (byte_at d 3 <<< 24))

def read_u64_le (d : List uint8_t) : Nat :=
  byte_at d 0 ||| u64 (byte_at d 1 <<< 8) |||
    u64 (byte_at d 2 <<< 16) ||| u64 (byte_at d 3 <<< 24) |||
    u64 (byte_at d 4 <<< 32) ||| u64 (byte_at d 5 <<< 40) |||
    u64 (byte_at d 6 <<< 48) ||| u64 (byte_at d 7 <<< 56)

def read_u16_be (d : List uint8_t) : Nat := u16 ((byte_at d 0 <<< 8) ||| byte_at d 1)

def read_u32_be (d : List uint8_t) : Nat :=
  u32 ((byte_at d 0 <<< 24) ||| (byte_at d 1 <<< 16) ||| (byte_at d 2 <<< 8) ||| byte_at d 3)

def read_u64_be (d : List uint8_t) : Nat :=
  u64 (byte_at d 0 <<< 56) ||| u64 (byte_at d 1 <<< 48) |||
    u64 (byte_at d 2 <<< 40) ||| u64 (byte_at d 3 <<< 32) |||
    u64 (byte_at d 4 <<< 24) ||| u64 (byte_at d 5 <<< 16) |||
    u64 (byte_at d 6 <<< 8) ||| byte_at d 7

end test_c

/-- The harness decoder.  It returns the numeric status codes it spells out (`7`, `1`, `2`,
`3`, `4`, `0`), next to the state of `*out` after the call. -/
def elf_header_parse_c_only (data : Option (List uint8_t)) (size : Nat)
    (out : Option elf_header_t) : Int × Option elf_header_t :=
  match data, out with
  | some d, some o =>
    if size < 64 then (7, some o)
    else if byte_at d 0 ≠ 0x7F ∨ byte_at d 1 ≠ 0x45 ∨ byte_at d 2 ≠ 0x4C ∨ byte_at d 3 ≠ 0x46 then
      (1, some o)
    else if byte_at d 4 ≠ 2 then (2, some o)
    else if byte_at d 5 ≠ 1 ∧ byte_at d 5 ≠ 2 then (3, some o)
    else if byte_at d 6 ≠ 1 then (4, some o)
    else
      let o := { o with e_ident := d.take 16 }
      if byte_at d 5 = 1 then
        let o := { o with e_type := test_c.read_u16_le (d.drop 16) }
        let o := { o with e_machine := test_c.read_u16_le (d.drop 18) }
        let o := { o with e_version := test_c.read_u32_le (d.drop 20) }
        let o := { o with e_entry := test_c.read_u64_le (d.drop 24) }
        let o := { o with e_phoff := test_c.read_u64_le (d.drop 32) }
        let o := { o with e_shoff := test_c.read_u64_le (d.drop 40) }
        let o := { o with e_flags := test_c.read_u32_le (d.drop 48) }
        let o := { o with e_ehsize := test_c.read_u16_le (d.drop 52) }
        let o := { o with e_phentsize := test_c.read_u16_le (d.drop 54) }
        let o := { o with e_phnum := test_c.read_u16_le (d.drop 56) }
        let o := { o with e_shentsize := test_c.read_u16_le (d.drop 58) }
        let o := { o with e_shnum := test_c.read_u16_le (d.drop 60) }
        let o := { o with e_shstrndx := test_c.read_u16_le (d.drop 62) }
        (0, some o)
      else
        let o := { o with e_type := test_c.read_u16_be (d.drop 16) }
        let o := { o with e_machine := test_c.read_u16_be (d.drop 18) }
        let o := { o with e_version := test_c.read_u32_be (d.drop 20) }
        let o := { o with e_entry := test_c.read_u64_be (d.drop 24) }
        let o := { o with e_phoff := test_c.read_u64_be (d.drop 32) }
        let o := { o with e_shoff := test_c.read_u64_be (d.drop 40) }
        let o := { o with e_flags := test_c.read_u32_be (d.drop 48) }
        let o := { o with e_ehsize := test_c.read_u16_be (d.drop 52) }
        let o := { o with e_phentsize := test_c.read_u16_be (d.drop 54) }
        let o := { o with e_phnum := test_c.read_u16_be (d.drop 56) }
        let o := { o with e_shentsize := test_c.read_u16_be (d.drop 58) }
        let o := { o with e_shnum := test_c.read_u16_be (d.drop 60) }
        let o := { o with e_shstrndx := test_c.read_u16_be (d.drop 62) }
        (0, some o)
  | _, _ => (7, out)

/-- The sample header with object type 9 (not a recognised type) and `e_phentsize = 56`. -/
def unknown_type_header : List uint8_t := (header_with 16 9).set 54 56

/-- The buffer `magic_buffer` after a growth to capacity 16 in which `realloc` delivered eight
further (zero) bytes. -/
def grown_buffer : elf_buffer_t :=
  { data := [0x7F, 0x45, 0x4C, 0x46, 0xAA, 0xBB, 0xCC, 0xDD, 0, 0, 0, 0, 0, 0, 0, 0],
    size := 4, capacity := 16, pos := 2 }

/-- A chunk of ten bytes. -/
def ten_bytes : List uint8_t := [1, 2, 3, 4, 5, 6, 7, 8, 9, 10]

/-! # Theorems -/

/-! ## Bit-level facts about the readers -/

theorem byte_at_lt (d : List uint8_t) (i : Nat) : byte_at d i < 256 := (d.getD i 0).isLt

/-- Or-ing a multiple of `2^k` with a value below `2^k` adds them. -/
theorem lor_of_dvd (A b k : Nat) (hd : 2 ^ k ∣ A) (hb : b < 2 ^ k) : A ||| b = A + b := by
  obtain ⟨a, rfl⟩ := hd
  exact (Nat.mul_add_lt_is_or hb a).symm

theorem lor_of_dvd_right (A b k : Nat) (hd : 2 ^ k ∣ A) (hb : b < 2 ^ k) : b ||| A = A + b := by
  rw [Nat.lor_comm]; exact lor_of_dvd A b k hd hb

theorem read_u16_le_eq (d : List uint8_t) :
    read_u16_le d = byte_at d 0 + 2 ^ 8 * byte_at d 1 := by
  have h0 := byte_at_lt d 0
  have h1 := byte_at_lt d 1
  unfold read_u16_le u16
  rw [Nat.shiftLeft_eq, lor_of_dvd_right _ _ 8 (by omega) (by omega)]
  omega

theorem read_u16_be_eq (d : List uint8_t) :
    read_u16_be d = 2 ^ 8 * byte_at d 0 + byte_at d 1 := by
  have h0 := byte_at_lt d 0
  have h1 := byte_at_lt d 1
  unfold read_u16_be u16
  rw [Nat.shiftLeft_eq, lor_of_dvd _ _ 8 (by omega) (by omega)]
  omega

/-- Appending a shifted byte above an accumulator that fits below the shift. -/
theorem lor_shl (acc b k : Nat) (hacc : acc < 2 ^ k) : acc ||| (b <<< k) = acc + 2 ^ k * b := by
  rw [Nat.shiftLeft_eq, lor_of_dvd_right (b * 2 ^ k) acc k (Dvd.intro_left b rfl) hacc]
  rw [Nat.mul_comm, Nat.add_comm]

/-- Appending a value below the shift under a shifted accumulator. -/
theorem shl_lor (A b k : Nat) (hd : 2 ^ k ∣ A) (hb : b < 2 ^ k) : A ||| b = A + b :=
  lor_of_dvd A b k hd hb

theorem u32_shl (b k : Nat) (hb : b < 256) (hk : k ≤ 24) : u32 (b <<< k) = b <<< k := by
  unfold u32
  apply Nat.mod_eq_of_lt
  rw [Nat.shiftLeft_eq]
  calc b * 2 ^ k < 256 * 2 ^ k := Nat.mul_lt_mul_of_pos_right hb (Nat.two_pow_pos k)
    _ ≤ 256 * 2 ^ 24 := Nat.mul_le_mul_left _ (Nat.pow_le_pow_right (by decide) hk)
    _ = 2 ^ 32 := by norm_num

theorem u64_shl (b k : Nat) (hb : b < 256) (hk : k ≤ 56) : u64 (b <<< k) = b <<< k := by
  unfold u64
  apply Nat.mod_eq_of_lt
  rw [Nat.shiftLeft_eq]
  calc b * 2 ^ k < 256 * 2 ^ k := Nat.mul_lt_mul_of_pos_right hb (Nat.two_pow_pos k)
    _ ≤ 256 * 2 ^ 56 := Nat.mul_le_mul_left _ (Nat.pow_le_pow_right (by decide) hk)
    _ = 2 ^ 64 := by norm_num

theorem read_u32_le_eq (d : List uint8_t) :
    read_u32_le d =
      byte_at d 0 + 2 ^ 8 * byte_at d 1 + 2 ^ 16 * byte_at d 2 + 2 ^ 24 * byte_at d 3 := by
  have h0 := byte_at_lt d 0
  have h1 := byte_at_lt d 1
  have h2 := byte_at_lt d 2
  have h3 := byte_at_lt d 3
  unfold read_u32_le
  rw [u32_shl _ 8 h1 (by omega), u32_shl _ 16 h2 (by omega), u32_shl _ 24 h3 (by omega)]
  rw [lor_shl _ _ 8 (by omega), lor_shl _ _ 16 (by omega), lor_shl _ _ 24 (by omega)]

theorem read_u32_be_eq (d : List uint8_t) :
    read_u32_be d =
      2 ^ 24 * byte_at d 0 + 2 ^ 16 * byte_at d 1 + 2 ^ 8 * byte_at d 2 + byte_at d 3 := by
  have h0 := byte_at_lt d 0
  have h1 := byte_at_lt d 1
  have h2 := byte_at_lt d 2
  have h3 := byte_at_lt d 3
  unfold read_u32_be
  rw [u32_shl _ 24 h0 (by omega), u32_shl _ 16 h1 (by omega), u32_shl _ 8 h2 (by omega)]
  simp only [Nat.shiftLeft_eq]
  rw [shl_lor (byte_at d 0 * 2 ^ 24) (byte_at d 1 * 2 ^ 16) 24 (by omega) (by omega),
    shl_lor (byte_at d 0 * 2 ^ 24 + byte_at d 1 * 2 ^ 16) (byte_at d 2 * 2 ^ 8) 16
      (by omega) (by omega),
    shl_lor _ (byte_at d 3) 8 (by omega) (by omega)]
  omega

theorem read_u64_le_eq (d : List uint8_t) :
    read_u64_le d =
      byte_at d 0 + 2 ^ 8 * byte_at d 1 + 2 ^ 16 * byte_at d 2 + 2 ^ 24 * byte_at d 3 +
        2 ^ 32 * byte_at d 4 + 2 ^ 40 * byte_at d 5 + 2 ^ 48 * byte_at d 6 +
        2 ^ 56 * byte_at d 7 := by
  have h0 := byte_at_lt d 0
  have h1 := byte_at_lt d 1
  have h2 := byte_at_lt d 2
  have h3 := byte_at_lt d 3
  have h4 := byte_at_lt d 4
  have h5 := byte_at_lt d 5
  have h6 := byte_at_lt d 6
  have h7 := byte_at_lt d 7
  unfold read_u64_le
  rw [u64_shl _ 8 h1 (by omega), u64_shl _ 16 h2 (by omega), u64_shl _ 24 h3 (by omega),
    u64_shl _ 32 h4 (by omega), u64_shl _ 40 h5 (by omega), u64_shl _ 48 h6 (by omega),
    u64_shl _ 56 h7 (by omega)]
  rw [lor_shl _ _ 8 (by omega), lor_shl _ _ 16 (by omega), lor_shl _ _ 24 (by omega),
    lor_shl _ _ 32 (by omega), lor_shl _ _ 40 (by omega), lor_shl _ _ 48 (by omega),
    lor_shl _ _ 56 (by omega)]

theorem read_u64_be_eq (d : List uint8_t) :
    read_u64_be d =
      2 ^ 56 * byte_at d 0 + 2 ^ 48 * byte_at d 1 + 2 ^ 40 * byte_at d 2 +
        2 ^ 32 * byte_at d 3 + 2 ^ 24 * byte_at d 4 + 2 ^ 16 * byte_at d 5 +
        2 ^ 8 * byte_at d 6 + byte_at d 7 := by
  have h0 := byte_at_lt d 0
  have h1 := byte_at_lt d 1
  have h2 := byte_at_lt d 2
  have h3 := byte_at_lt d 3
  have h4 := byte_at_lt d 4
  have h5 := byte_at_lt d 5
  have h6 := byte_at_lt d 6
  have h7 := byte_at_lt d 7
  unfold read_u64_be
  rw [u64_shl _ 56 h0 (by omega), u64_shl _ 48 h1 (by omega), u64_shl _ 40 h2 (by omega),
    u64_shl _ 32 h3 (by omega), u64_shl _ 24 h4 (by omega), u64_shl _ 16 h5 (by omega),
    u64_shl _ 8 h6 (by omega)]
  simp only [Nat.shiftLeft_eq]
  rw [shl_lor (byte_at d 0 * 2 ^ 56) (byte_at d 1 * 2 ^ 48) 56 (by omega) (by omega),
    shl_lor _ (byte_at d 2 * 2 ^ 40) 48 (by omega) (by omega),
    shl_lor _ (byte_at d 3 * 2 ^ 32) 40 (by omega) (by omega),
    shl_lor _ (byte_at d 4 * 2 ^ 24) 32 (by omega) (by omega),
    shl_lor _ (byte_at d 5 * 2 ^ 16) 24 (by omega) (by omega),
    shl_lor _ (byte_at d 6 * 2 ^ 8) 16 (by omega) (by omega),
    shl_lor _ (byte_at d 7) 8 (by omega) (by omega)]
  omega

/-! ## The readers compute the value of the byte range they are pointed at -/

theorem le_value_take2 (l : List uint8_t) (h : 2 ≤ l.length) :
    le_value (l.take 2) = byte_at l 0 + 2 ^ 8 * byte_at l 1 := by
  rcases l with _ | ⟨a0, _ | ⟨a1, r⟩⟩
  all_goals try (exfalso; simp only [List.length_cons, List.length_nil] at h; omega)
  simp [le_value, byte_at]

theorem be_value_take2 (l : List uint8_t) (h : 2 ≤ l.length) :
    be_value (l.take 2) = 2 ^ 8 * byte_at l 0 + byte_at l 1 := by
  rcases l with _ | ⟨a0, _ | ⟨a1, r⟩⟩
  all_goals try (exfalso; simp only [List.length_cons, List.length_nil] at h; omega)
  simp [be_value, byte_at]

theorem le_value_take4 (l : List uint8_t) (h : 4 ≤ l.length) :
    le_value (l.take 4) =
      byte_at l 0 + 2 ^ 8 * byte_at l 1 + 2 ^ 16 * byte_at l 2 + 2 ^ 24 * byte_at l 3 := by
  rcases l with _ | ⟨a0, _ | ⟨a1, _ | ⟨a2, _ | ⟨a3, r⟩⟩⟩⟩
  all_goals try (exfalso; simp only [List.length_cons, List.length_nil] at h; omega)
  simp only [List.take, le_value, byte_at, List.getD_cons_zero, List.getD_cons_succ]
  omega

theorem be_value_take4 (l : List uint8_t) (h : 4 ≤ l.length) :
    be_value (l.take 4) =
      2 ^ 24 * byte_at l 0 + 2 ^ 16 * byte_at l 1 + 2 ^ 8 * byte_at l 2 + byte_at l 3 := by
  rcases l with _ | ⟨a0, _ | ⟨a1, _ | ⟨a2, _ | ⟨a3, r⟩⟩⟩⟩
  all_goals try (exfalso; simp only [List.length_cons, List.length_nil] at h; omega)
  simp only [List.take, be_value, List.foldl, byte_at, List.getD_cons_zero, List.getD_cons_succ]
  omega

theorem le_value_take8 (l : List uint8_t) (h : 8 ≤ l.length) :
    le_value (l.take 8) =
      byte_at l 0 + 2 ^ 8 * byte_at l 1 + 2 ^ 16 * byte_at l 2 + 2 ^ 24 * byte_at l 3 +
        2 ^ 32 * byte_at l 4 + 2 ^ 40 * byte_at l 5 + 2 ^ 48 * byte_at l 6 +
        2 ^ 56 * byte_at l 7 := by
  rcases l with _ | ⟨a0, _ | ⟨a1, _ | ⟨a2, _ | ⟨a3, _ | ⟨a4, _ | ⟨a5, _ | ⟨a6, _ | ⟨a7, r⟩⟩⟩⟩⟩⟩⟩⟩
  all_goals try (exfalso; simp only [List.length_cons, List.length_nil] at h; omega)
  simp only [List.take, le_value, byte_at, List.getD_cons_zero, List.getD_cons_succ]
  omega

theorem be_value_take8 (l : List uint8_t) (h : 8 ≤ l.length) :
    be_value (l.take 8) =
      2 ^ 56 * byte_at l 0 + 2 ^ 48 * byte_at l 1 + 2 ^ 40 * byte_at l 2 +
        2 ^ 32 * byte_at l 3 + 2 ^ 24 * byte_at l 4 + 2 ^ 16 * byte_at l 5 +
        2 ^ 8 * byte_at l 6 + byte_at l 7 := by
  rcases l with _ | ⟨a0, _ | ⟨a1, _ | ⟨a2, _ | ⟨a3, _ | ⟨a4, _ | ⟨a5, _ | ⟨a6, _ | ⟨a7, r⟩⟩⟩⟩⟩⟩⟩⟩
  all_goals try (exfalso; simp only [List.length_cons, List.length_nil] at h; omega)
  simp only [List.take, be_value, List.foldl, byte_at, List.getD_cons_zero, List.getD_cons_succ]
  omega

theorem read_u16_le_drop (d : List uint8_t) (off : Nat) (h : off + 2 ≤ d.length) :
    read_u16_le (d.drop off) = le_value (byte_range d off 2) := by
  rw [read_u16_le_eq, byte_range, le_value_take2 _ (by rw [List.length_drop]; omega)]

theorem read_u16_be_drop (d : List uint8_t) (off : Nat) (h : off + 2 ≤ d.length) :
    read_u16_be (d.drop off) = be_value (byte_range d off 2) := by
  rw [read_u16_be_eq, byte_range, be_value_take2 _ (by rw [List.length_drop]; omega)]

theorem read_u32_le_drop (d : List uint8_t) (off : Nat) (h : off + 4 ≤ d.length) :
    read_u32_le (d.drop off) = le_value (byte_range d off 4) := by
  rw [read_u32_le_eq, byte_range, le_value_take4 _ (by rw [List.length_drop]; omega)]

theorem read_u32_be_drop (d : List uint8_t) (off : Nat) (h : off + 4 ≤ d.length) :
    read_u32_be (d.drop off) = be_value (byte_range d off 4) := by
  rw [read_u32_be_eq, byte_range, be_value_take4 _ (by rw [List.length_drop]; omega)]

theorem read_u64_le_drop (d : List uint8_t) (off : Nat) (h : off + 8 ≤ d.length) :
    read_u64_le (d.drop off) = le_value (byte_range d off 8) := by
  rw [read_u64_le_eq, byte_range, le_value_take8 _ (by rw [List.length_drop]; omega)]

theorem read_u64_be_drop (d : List uint8_t) (off : Nat) (h : off + 8 ≤ d.length) :
    read_u64_be (d.drop off) = be_value (byte_range d off 8) := by
  rw [read_u64_be_eq, byte_range, be_value_take8 _ (by rw [List.length_drop]; omega)]

/-- The first four bytes are the magic exactly when the four byte comparisons of the
decoder all succeed. -/
theorem magic_iff (d : List uint8_t) (h : 4 ≤ d.length) :
    byte_range d 0 4 = elf_magic ↔
      byte_at d 0 = 0x7F ∧ byte_at d 1 = 0x45 ∧ byte_at d 2 = 0x4C ∧ byte_at d 3 = 0x46 := by
  rcases d with _ | ⟨a0, _ | ⟨a1, _ | ⟨a2, _ | ⟨a3, r⟩⟩⟩⟩
  all_goals try (exfalso; simp only [List.length_cons, List.length_nil] at h; omega)
  simp only [byte_range, elf_magic, byte_at, List.drop, List.take, List.cons.injEq, and_true,
    List.getD_cons_zero, List.getD_cons_succ, Fin.ext_iff]
  exact Iff.rfl

/-! ## Claims about `elf_header_parse` -/

/-- What the decoder does once size, magic, class and version have passed, with the byte
order already chosen (`le = true` for little-endian). -/
theorem hdr_decode_order (d : List uint8_t) (size : Nat) (o : elf_header_t) (le : Bool)
    (hsize : 64 ≤ size) (hlen : size ≤ d.length) (hmagic : byte_range d 0 4 = elf_magic)
    (hclass : byte_at d 4 = 2) (hver : byte_at d 6 = 1)
    (hle : byte_at d 5 = 1 ↔ le = true) :
    let val := if le then le_value else be_value
    elf_header_parse (some d) size (some o) =
      if recognised_type (val (byte_range d 16 2)) then
        (if byte_at d 5 = 1 ∨ byte_at d 5 = 2 then ELF_HDR_OK else ELF_HDR_ERR_ENCODING,
          some (spec_header val d))
      else
        (ELF_HDR_ERR_TYPE,
          some { o with e_ident := byte_range d 0 16, e_type := val (byte_range d 16 2),
                        e_machine := val (byte_range d 18 2) }) := by
  obtain ⟨m0, m1, m2, m3⟩ := (magic_iff d (by omega)).1 hmagic
  have h1 : ¬ size < ELF_HEADER_64_SIZE := by unfold ELF_HEADER_64_SIZE; omega
  have hid : List.take 16 d = byte_range d 0 16 := by simp [byte_range]
  have r16 : ∀ off, off + 2 ≤ 64 → read_u16_le (d.drop off) = le_value (byte_range d off 2) ∧
      read_u16_be (d.drop off) = be_value (byte_range d off 2) := fun off h =>
    ⟨read_u16_le_drop d off (by omega), read_u16_be_drop d off (by omega)⟩
  have r32 : ∀ off, off + 4 ≤ 64 → read_u32_le (d.drop off) = le_value (byte_range d off 4) ∧
      read_u32_be (d.drop off) = be_value (byte_range d off 4) := fun off h =>
    ⟨read_u32_le_drop d off (by omega), read_u32_be_drop d off (by omega)⟩
  have r64 : ∀ off, off + 8 ≤ 64 → read_u64_le (d.drop off) = le_value (byte_range d off 8) ∧
      read_u64_be (d.drop off) = be_value (byte_range d off 8) := fun off h =>
    ⟨read_u64_le_drop d off (by omega), read_u64_be_drop d off (by omega)⟩
  cases le with
  | true =>
    have h5 : byte_at d 5 = 1 := hle.2 rfl
    simp only [elf_header_parse, h1, m0, m1, m2, m3, elf_header_get_class,
      elf_header_get_encoding, elf_header_get_version, hclass, hver, h5, ELFCLASS64, EV_CURRENT,
      ELFDATA2LSB, ELFDATA2MSB, hid, recognised_type, ET_REL, ET_EXEC, ET_DYN, ET_CORE]
    simp only [Nat.cast_ofNat, Nat.cast_one, ne_eq, not_true_eq_false, if_true, if_false,
      false_or, false_and, true_or, or_self, (r16 16 (by omega)).1, (r16 18 (by omega)).1,
      (r32 20 (by omega)).1, (r64 24 (by omega)).1, (r64 32 (by omega)).1,
      (r64 40 (by omega)).1, (r32 48 (by omega)).1, (r16 52 (by omega)).1,
      (r16 54 (by omega)).1, (r16 56 (by omega)).1, (r16 58 (by omega)).1,
      (r16 60 (by omega)).1, (r16 62 (by omega)).1]
    by_cases ht : le_value (byte_range d 16 2) = 1 ∨ le_value (byte_range d 16 2) = 2 ∨
        le_value (byte_range d 16 2) = 3 ∨ le_value (byte_range d 16 2) = 4
    · have ht2 : ¬ (¬ le_value (byte_range d 16 2) = 1 ∧ ¬ le_value (byte_range d 16 2) = 2 ∧
          ¬ le_value (byte_range d 16 2) = 3 ∧ ¬ le_value (byte_range d 16 2) = 4) := by tauto
      rw [if_neg ht2, if_pos ht]
      rfl
    · have ht2 : ¬ le_value (byte_range d 16 2) = 1 ∧ ¬ le_value (byte_range d 16 2) = 2 ∧
          ¬ le_value (byte_range d 16 2) = 3 ∧ ¬ le_value (byte_range d 16 2) = 4 := by tauto
      rw [if_pos ht2, if_neg ht]
  | false =>
    have h5 : byte_at d 5 ≠ 1 := fun h => by simpa using hle.1 h
    have h5i : ¬ ((byte_at d 5 : Int) = 1) := by exact_mod_cast h5
    simp only [elf_header_parse, h1, m0, m1, m2, m3, elf_header_get_class,
      elf_header_get_encoding, elf_header_get_version, hclass, hver, h5, h5i, ELFCLASS64,
      EV_CURRENT, ELFDATA2LSB, ELFDATA2MSB, hid, recognised_type, ET_REL, ET_EXEC, ET_DYN, ET_CORE]
    simp only [Nat.cast_ofNat, Nat.cast_one, ne_eq, not_true_eq_false, if_true, if_false,
      false_or, false_and, true_or, or_self, (r16 16 (by omega)).2, (r16 18 (by omega)).2,
      (r32 20 (by omega)).2, (r64 24 (by omega)).2, (r64 32 (by omega)).2,
      (r64 40 (by omega)).2, (r32 48 (by omega)).2, (r16 52 (by omega)).2,
      (r16 54 (by omega)).2, (r16 56 (by omega)).2, (r16 58 (by omega)).2,
      (r16 60 (by omega)).2, (r16 62 (by omega)).2, Bool.false_eq_true, not_false_eq_true,
      true_and]
    have hi2 : ((byte_at d 5 : Int) = 2) ↔ byte_at d 5 = 2 := by
      constructor
      · intro h; exact_mod_cast h
      · intro h; exact_mod_cast h
    by_cases ht : be_value (byte_range d 16 2) = 1 ∨ be_value (byte_range d 16 2) = 2 ∨
        be_value (byte_range d 16 2) = 3 ∨ be_value (byte_range d 16 2) = 4
    · have ht2 : ¬ (¬ be_value (byte_range d 16 2) = 1 ∧ ¬ be_value (byte_range d 16 2) = 2 ∧
          ¬ be_value (byte_range d 16 2) = 3 ∧ ¬ be_value (byte_range d 16 2) = 4) := by tauto
      rw [if_neg ht2, if_pos ht]
      by_cases h2 : byte_at d 5 = 2
      · rw [if_neg (by rw [hi2]; exact fun h => h.2 h2), if_pos h2]; rfl
      · rw [if_pos (by rw [hi2]; exact ⟨h5i, h2⟩), if_neg h2]; rfl
    · have ht2 : ¬ be_value (byte_range d 16 2) = 1 ∧ ¬ be_value (byte_range d 16 2) = 2 ∧
          ¬ be_value (byte_range d 16 2) = 3 ∧ ¬ be_value (byte_range d 16 2) = 4 := by tauto
      rw [if_pos ht2, if_neg ht]

/-- C1: for every input of at least 64 bytes with the ELF magic, class byte 2, version
byte 1, encoding byte 1 or 2 and a recognised object type (read in the byte order the encoding
byte names), `elf_header_parse` returns `ELF_HDR_OK` and leaves in the output record the
first 16 bytes as `e_ident` and, in every other field, the unsigned value of the field's byte
range, read little-endian when byte 5 is 1 and big-endian when byte 5 is 2. -/
theorem elf_header_parse_valid (d : List uint8_t) (size : Nat) (o : elf_header_t)
    (hsize : 64 ≤ size) (hlen : size ≤ d.length) (hmagic : byte_range d 0 4 = elf_magic)
    (hclass : byte_at d 4 = 2) (hver : byte_at d 6 = 1)
    (htype : (byte_at d 5 = 1 ∧ recognised_type (le_value (byte_range d 16 2))) ∨
      (byte_at d 5 = 2 ∧ recognised_type (be_value (byte_range d 16 2)))) :
    (byte_at d 5 = 1 →
        elf_header_parse (some d) size (some o) = (ELF_HDR_OK, some (spec_header le_value d))) ∧
      (byte_at d 5 = 2 →
        elf_header_parse (some d) size (some o) = (ELF_HDR_OK, some (spec_header be_value d))) := by
  constructor
  · intro h5
    have ht : recognised_type (le_value (byte_range d 16 2)) := by
      rcases htype with ⟨_, h⟩ | ⟨h, _⟩
      · exact h
      · omega
    have := hdr_decode_order d size o true hsize hlen hmagic hclass hver (by simp [h5])
    simpa [ht, h5] using this
  · intro h5
    have ht : recognised_type (be_value (byte_range d 16 2)) := by
      rcases htype with ⟨h, _⟩ | ⟨_, h⟩
      · omega
      · exact h
    have := hdr_decode_order d size o false hsize hlen hmagic hclass hver (by simp [h5])
    simpa [ht, h5] using this

/-- The size guard: below 64 bytes the decoder stops at its first test. -/
theorem hdr_size_guard (data : Option (List uint8_t)) (size : Nat)
    (out : Option elf_header_t) (hsize : size < 64) :
    elf_header_parse data size out = (ELF_HDR_ERR_SIZE, out) := by
  unfold elf_header_parse
  cases data <;> cases out <;> simp [ELF_HEADER_64_SIZE, hsize]

/-- The magic guard. -/
theorem hdr_magic_guard (d : List uint8_t) (size : Nat) (o : elf_header_t)
    (hsize : 64 ≤ size) (hlen : size ≤ d.length) (hmagic : byte_range d 0 4 ≠ elf_magic) :
    elf_header_parse (some d) size (some o) = (ELF_HDR_ERR_MAGIC, some o) := by
  have h1 : ¬ size < ELF_HEADER_64_SIZE := by unfold ELF_HEADER_64_SIZE; omega
  have hm : byte_at d 0 ≠ 0x7F ∨ byte_at d 1 ≠ 0x45 ∨ byte_at d 2 ≠ 0x4C ∨ byte_at d 3 ≠ 0x46 := by
    by_contra hc
    apply hmagic
    rw [magic_iff d (by omega)]
    omega
  simp only [elf_header_parse, h1, if_false, hm, if_true]

/-- The class guard. -/
theorem hdr_class_guard (d : List uint8_t) (size : Nat) (o : elf_header_t)
    (hsize : 64 ≤ size) (hlen : size ≤ d.length) (hmagic : byte_range d 0 4 = elf_magic)
    (hclass : byte_at d 4 ≠ 2) :
    elf_header_parse (some d) size (some o) = (ELF_HDR_ERR_CLASS, some o) := by
  obtain ⟨m0, m1, m2, m3⟩ := (magic_iff d (by omega)).1 hmagic
  have h1 : ¬ size < ELF_HEADER_64_SIZE := by unfold ELF_HEADER_64_SIZE; omega
  have hc : ((byte_at d 4 : Nat) : Int) ≠ 2 := by exact_mod_cast hclass
  simp [elf_header_parse, h1, m0, m1, m2, m3, elf_header_get_class, ELFCLASS64, hc]

/-- An input with magic and class in order but a version byte other than 1 is rejected with
`ELF_HDR_ERR_VERSION`, the output record untouched. -/
theorem hdr_version_guard (d : List uint8_t) (size : Nat) (o : elf_header_t)
    (hsize : 64 ≤ size) (hlen : size ≤ d.length) (hmagic : byte_range d 0 4 = elf_magic)
    (hclass : byte_at d 4 = 2) (hver : byte_at d 6 ≠ 1) :
    elf_header_parse (some d) size (some o) = (ELF_HDR_ERR_VERSION, some o) := by
  obtain ⟨m0, m1, m2, m3⟩ := (magic_iff d (by omega)).1 hmagic
  have h1 : ¬ size < ELF_HEADER_64_SIZE := by unfold ELF_HEADER_64_SIZE; omega
  have hv : ((byte_at d 6 : Nat) : Int) ≠ 1 := by exact_mod_cast hver
  simp [elf_header_parse, h1, m0, m1, m2, m3, elf_header_get_class, elf_header_get_version,
    ELFCLASS64, EV_CURRENT, hclass, hv]

/-- C2: every input shorter than 64 bytes is rejected with `ELF_HDR_ERR_SIZE`, whatever its
bytes (and whatever the two pointers) are; the output record is not touched. -/
theorem elf_header_parse_short (data : Option (List uint8_t)) (size : Nat)
    (out : Option elf_header_t) (hsize : size < 64) :
    elf_header_parse data size out = (ELF_HDR_ERR_SIZE, out) :=
  hdr_size_guard data size out hsize

/-- C3: every input of at least 64 bytes whose first four bytes differ from
`0x7F 'E' 'L' 'F'` is rejected with `ELF_HDR_ERR_MAGIC`, whatever the class, encoding, version
and type bytes are. -/
theorem elf_header_parse_bad_magic (d : List uint8_t) (size : Nat) (o : elf_header_t)
    (hsize : 64 ≤ size) (hlen : size ≤ d.length) (hmagic : byte_range d 0 4 ≠ elf_magic) :
    elf_header_parse (some d) size (some o) = (ELF_HDR_ERR_MAGIC, some o) :=
  hdr_magic_guard d size o hsize hlen hmagic

/-- C4: every input of at least 64 bytes with the ELF magic whose class byte (offset 4) is
not 2 is rejected with `ELF_HDR_ERR_CLASS`, and the output record is left exactly as it was
before the call: no field of it is written. -/
theorem elf_header_parse_bad_class (d : List uint8_t) (size : Nat) (o : elf_header_t)
    (hsize : 64 ≤ size) (hlen : size ≤ d.length) (hmagic : byte_range d 0 4 = elf_magic)
    (hclass : byte_at d 4 ≠ 2) :
    elf_header_parse (some d) size (some o) = (ELF_HDR_ERR_CLASS, some o) :=
  hdr_class_guard d size o hsize hlen hmagic hclass

/-- C5: `elf_header_parse` returns `ELF_HDR_OK` if and only if the input has at least 64
bytes, starts with the ELF magic, has class byte 2, version byte 1, encoding byte 1 or 2, and
the 16-bit value at offset 16, read in the byte order the encoding byte names, is one of the
recognised types 1, 2, 3, 4. -/
theorem elf_header_parse_ok_iff (d : List uint8_t) (size : Nat) (o : elf_header_t)
    (hlen : size ≤ d.length) :
    (elf_header_parse (some d) size (some o)).1 = ELF_HDR_OK ↔
      64 ≤ size ∧ byte_range d 0 4 = elf_magic ∧ byte_at d 4 = 2 ∧ byte_at d 6 = 1 ∧
        ((byte_at d 5 = 1 ∧ recognised_type (le_value (byte_range d 16 2))) ∨
          (byte_at d 5 = 2 ∧ recognised_type (be_value (byte_range d 16 2)))) := by
  by_cases hs : size < 64
  · rw [hdr_size_guard _ _ _ hs]
    constructor
    · intro h; cases h
    · intro h; omega
  have hsize : 64 ≤ size := by omega
  by_cases hm : byte_range d 0 4 = elf_magic
  swap
  · rw [hdr_magic_guard d size o hsize hlen hm]
    constructor
    · intro h; cases h
    · intro h; exact absurd h.2.1 hm
  by_cases hc : byte_at d 4 = 2
  swap
  · rw [hdr_class_guard d size o hsize hlen hm hc]
    constructor
    · intro h; cases h
    · intro h; exact absurd h.2.2.1 hc
  by_cases hv : byte_at d 6 = 1
  swap
  · rw [hdr_version_guard d size o hsize hlen hm hc hv]
    constructor
    · intro h; cases h
    · intro h; exact absurd h.2.2.2.1 hv
  by_cases h5 : byte_at d 5 = 1
  · have := hdr_decode_order d size o true hsize hlen hm hc hv (by simp [h5])
    simp only [if_true] at this
    rw [this]
    have h52 : ¬ byte_at d 5 = 2 := by omega
    by_cases ht : recognised_type (le_value (byte_range d 16 2))
    · simp [ht, h5, hsize, hm, hc, hv]
    · simp [ht, h5, h52, hsize, hm, hc, hv]
  · have := hdr_decode_order d size o false hsize hlen hm hc hv (by simp [h5])
    simp only [Bool.false_eq_true, if_false] at this
    rw [this]
    by_cases ht : recognised_type (be_value (byte_range d 16 2))
    · by_cases h52 : byte_at d 5 = 2
      · simp [ht, h5, h52, hsize, hm, hc, hv]
      · simp [ht, h5, h52, hsize, hm, hc, hv]
    · simp [ht, h5, hsize, hm, hc, hv]

/-- C6, as amended: for every input of at least 64 bytes with valid magic, class and version
whose encoding byte is neither 1 nor 2, `elf_header_parse` decodes the fields big-endian: it
returns `ELF_HDR_ERR_TYPE` (with only `e_ident`, `e_type` and `e_machine` written) when the
big-endian 16-bit value at offset 16 is not one of 1, 2, 3, 4, and otherwise returns
`ELF_HDR_ERR_ENCODING`, the encoding check coming last, after every field was decoded
big-endian. -/
theorem elf_header_parse_unknown_encoding (d : List uint8_t) (size : Nat) (o : elf_header_t)
    (hsize : 64 ≤ size) (hlen : size ≤ d.length) (hmagic : byte_range d 0 4 = elf_magic)
    (hclass : byte_at d 4 = 2) (hver : byte_at d 6 = 1)
    (henc : byte_at d 5 ≠ 1 ∧ byte_at d 5 ≠ 2) :
    (¬ recognised_type (be_value (byte_range d 16 2)) →
        elf_header_parse (some d) size (some o) =
          (ELF_HDR_ERR_TYPE,
            some { o with e_ident := byte_range d 0 16
                          e_type := be_value (byte_range d 16 2)
                          e_machine := be_value (byte_range d 18 2) })) ∧
      (recognised_type (be_value (byte_range d 16 2)) →
        elf_header_parse (some d) size (some o) =
          (ELF_HDR_ERR_ENCODING, some (spec_header be_value d))) := by
  have := hdr_decode_order d size o false hsize hlen hmagic hclass hver (by simp [henc.1])
  simp only [Bool.false_eq_true, if_false] at this
  rw [this]
  constructor
  · intro ht; simp [ht]
  · intro ht; simp [ht, henc.1, henc.2]

/-! ### Concrete instances -/

theorem elf_header_parse_valid_witness :
    elf_header_parse (some sample_header) 64 (some elf_header_zero) =
      (ELF_HDR_OK, some (spec_header le_value sample_header)) :=
  (elf_header_parse_valid sample_header 64 elf_header_zero (by decide) (by decide) (by decide)
    (by decide) (by decide) (Or.inl ⟨by decide, by decide⟩)).1 (by decide)

theorem elf_header_parse_short_witness :
    elf_header_parse (some (sample_header.take 63)) 63 (some elf_header_zero) =
      (ELF_HDR_ERR_SIZE, some elf_header_zero) :=
  elf_header_parse_short (some (sample_header.take 63)) 63 (some elf_header_zero) (by decide)

theorem elf_header_parse_bad_magic_witness :
    elf_header_parse (some (header_with 3 0x47)) 64 (some elf_header_zero) =
      (ELF_HDR_ERR_MAGIC, some elf_header_zero) :=
  elf_header_parse_bad_magic (header_with 3 0x47) 64 elf_header_zero (by decide) (by decide)
    (by decide)

theorem elf_header_parse_bad_class_witness :
    elf_header_parse (some (header_with 4 1)) 64 (some elf_header_zero) =
      (ELF_HDR_ERR_CLASS, some elf_header_zero) :=
  elf_header_parse_bad_class (header_with 4 1) 64 elf_header_zero (by decide) (by decide)
    (by decide) (by decide)

theorem elf_header_parse_ok_iff_witness :
    (elf_header_parse (some (header_with 16 4)) 64 (some elf_header_zero)).1 = ELF_HDR_OK :=
  (elf_header_parse_ok_iff (header_with 16 4) 64 elf_header_zero (by decide)).2
    ⟨by decide, by decide, by decide, by decide, Or.inl ⟨by decide, by decide⟩⟩

theorem elf_header_parse_unknown_encoding_witness :
    elf_header_parse (some unknown_encoding_header) 64 (some elf_header_zero) =
      (ELF_HDR_ERR_TYPE,
        some { elf_header_zero with e_ident := byte_range unknown_encoding_header 0 16
                                    e_type := be_value (byte_range unknown_encoding_header 16 2)
                                    e_machine :=
                                      be_value (byte_range unknown_encoding_header 18 2) }) :=
  (elf_header_parse_unknown_encoding unknown_encoding_header 64 elf_header_zero (by decide)
    (by decide) (by decide) (by decide) (by decide) ⟨by decide, by decide⟩).1 (by decide)

/-- C6 as written fails: on a 64-byte input with valid magic, class and version, encoding
byte 0 and type bytes `02 00`, the little-endian value at offset 16 is the recognised type 2,
so the claim predicts `ELF_HDR_ERR_ENCODING`; the decoder reads the type big-endian (512) and
returns `ELF_HDR_ERR_TYPE`. -/
theorem elf_header_parse_default_order_counterexample :
    (64 ≤ unknown_encoding_header.length ∧
        byte_range unknown_encoding_header 0 4 = elf_magic ∧
        byte_at unknown_encoding_header 4 = 2 ∧ byte_at unknown_encoding_header 6 = 1 ∧
        byte_at unknown_encoding_header 5 ≠ 1 ∧ byte_at unknown_encoding_header 5 ≠ 2 ∧
        recognised_type (le_value (byte_range unknown_encoding_header 16 2))) ∧
      (elf_header_parse (some unknown_encoding_header) 64 (some elf_header_zero)).1 =
        ELF_HDR_ERR_TYPE ∧
      (elf_header_parse (some unknown_encoding_header) 64 (some elf_header_zero)).1 ≠
        ELF_HDR_ERR_ENCODING := by
  decide

/-! ## The ingest buffer -/

theorem u64_of_lt (n : Nat) (h : n < 2 ^ 64) : u64 n = n := Nat.mod_eq_of_lt h

/-- The status of `elf_read_bytes` is decided by the comparison `pos > size + count`. -/
theorem elf_read_bytes_eof_iff (b : elf_buffer_t) (out : List uint8_t) (count : Nat) :
    (elf_read_bytes b out count).1 = ELF_ERR_EOF ↔ b.pos > u64 (b.size + count) := by
  unfold elf_read_bytes
  by_cases h : b.pos > u64 (b.size + count) <;> simp [h]

/-- On a buffer that satisfies the invariant `elf_read_bytes` reports no end of buffer,
however large `count` is, as long as `size + count` does not wrap. -/
theorem elf_read_bytes_ok_of_invariant (b : elf_buffer_t) (out : List uint8_t) (count : Nat)
    (hinv : buffer_invariant b) (hfit : b.size + count < 2 ^ 64) :
    (elf_read_bytes b out count).1 = ELF_OK := by
  have h : ¬ b.pos > u64 (b.size + count) := by
    rw [u64_of_lt _ hfit]; have := hinv.1; omega
  simp [elf_read_bytes, h]

/-- A freshly created buffer satisfies the invariant. -/
theorem buffer_invariant_new (struct_ok : Bool) (storage : Option (List uint8_t))
    (capacity : Nat) (b : elf_buffer_t)
    (h : elf_buffer_new struct_ok storage capacity = some b) : buffer_invariant b := by
  unfold elf_buffer_new at h
  cases struct_ok <;> cases storage <;> simp at h
  subst h
  simp [buffer_invariant]

theorem buffer_invariant_read_byte (b : elf_buffer_t) (out : uint8_t)
    (hinv : buffer_invariant b) (hsz : b.size < 2 ^ 64) :
    buffer_invariant (elf_read_byte b out).2.1 := by
  unfold elf_read_byte
  by_cases h : b.pos ≥ b.size
  · simpa [h] using hinv
  · have : u64 (b.pos + 1) = b.pos + 1 := u64_of_lt _ (by omega)
    simp only [h, if_false, this]
    exact ⟨by show b.pos + 1 ≤ b.size; omega, hinv.2⟩

theorem buffer_invariant_peek_byte (b : elf_buffer_t) (out : uint8_t)
    (hinv : buffer_invariant b) : buffer_invariant (elf_peek_byte b out).2.1 := by
  unfold elf_peek_byte
  by_cases h : b.pos ≥ b.size <;> simpa [h] using hinv

theorem buffer_invariant_reset (b : elf_buffer_t) (hinv : buffer_invariant b) :
    buffer_invariant (elf_buffer_reset b) :=
  ⟨Nat.zero_le _, hinv.2⟩

theorem buffer_invariant_seek (b : elf_buffer_t) (offset : Nat) (hinv : buffer_invariant b) :
    buffer_invariant (elf_buffer_seek b offset) := by
  unfold elf_buffer_seek
  by_cases h : offset ≤ b.size
  · simp only [h, if_true]; exact ⟨h, hinv.2⟩
  · simpa [h] using hinv

theorem buffer_invariant_tell (b : elf_buffer_t) (hinv : buffer_invariant b) :
    buffer_invariant (elf_buffer_tell b).2 := hinv

/-- The doubling loop never ends below the capacity it started from, and ends at or above
its target. -/
theorem expand_loop_bounds (target : Nat) :
    ∀ (fuel c c' : Nat), expand_loop target fuel c = some (some c') → c ≤ c' ∧ target ≤ c' := by
  intro fuel
  induction fuel with
  | zero => intro c c' h; simp [expand_loop] at h
  | succ n ih =>
    intro c c' h
    unfold expand_loop at h
    by_cases h1 : c < target
    · by_cases h2 : c > MAX
      · simp [h1, h2] at h
      · simp only [h1, h2, if_true, if_false] at h
        have hM : c ≤ 2 ^ 30 := by unfold MAX at h2; omega
        rw [u64_of_lt _ (by omega)] at h
        have := ih _ _ h
        omega
    · simp only [h1, if_false, Option.some.injEq] at h
      omega

theorem buffer_invariant_expand (fuel : Nat) (heap : Option (List uint8_t)) (b b' : elf_buffer_t)
    (needed : Nat) (st : elf_status_t) (hinv : buffer_invariant b)
    (h : elf_buffer_expand fuel heap b needed = some (st, b')) : buffer_invariant b' := by
  unfold elf_buffer_expand at h
  rcases hl : expand_loop (u64 (b.size + needed)) fuel b.capacity with _ | _ | c
  · simp [hl] at h
  · simp only [hl, Option.some.injEq, Prod.mk.injEq] at h
    rw [← h.2]; exact hinv
  · have hb := expand_loop_bounds _ _ _ _ hl
    cases heap with
    | none =>
      simp only [hl, Option.some.injEq, Prod.mk.injEq] at h
      rw [← h.2]; exact hinv
    | some fresh =>
      simp only [hl, Option.some.injEq, Prod.mk.injEq] at h
      rw [← h.2]
      exact ⟨hinv.1, by show b.size ≤ c; have := hinv.2; omega⟩

/-- The append step of the fill functions keeps the invariant whenever the new size does not
wrap around. -/
theorem buffer_invariant_append (fuel : Nat) (heap : Option (List uint8_t)) (b b' : elf_buffer_t)
    (chunk : List uint8_t) (st : elf_status_t) (hinv : buffer_invariant b)
    (hfit : b.size + chunk.length < 2 ^ 64)
    (h : elf_read_append fuel heap b chunk = some (st, b')) : buffer_invariant b' := by
  unfold elf_read_append at h
  have hu : u64 (b.size + chunk.length) = b.size + chunk.length := u64_of_lt _ hfit
  by_cases hg : u64 (b.size + chunk.length) > b.capacity
  · simp only [hg, if_true] at h
    rcases he : elf_buffer_expand fuel heap b chunk.length with _ | ⟨st1, b1⟩
    · simp [he] at h
    · have hinv1 := buffer_invariant_expand fuel heap b b1 chunk.length st1 hinv he
      rw [he] at h
      cases st1 <;> simp only [Option.some.injEq, Prod.mk.injEq] at h <;>
        try (rw [← h.2]; exact hinv1)
      -- the growth succeeded: the new capacity covers the target
      unfold elf_buffer_expand at he
      rcases hl : expand_loop (u64 (b.size + chunk.length)) fuel b.capacity with _ | _ | c
      · simp [hl] at he
      · simp [hl] at he
      · have hb := expand_loop_bounds _ _ _ _ hl
        cases heap with
        | none => simp [hl] at he
        | some fresh =>
          simp only [hl, Option.some.injEq, Prod.mk.injEq, true_and] at he
          rw [← h.2, ← he]
          simp only [buffer_invariant]
          rw [hu] at hb ⊢
          have := hinv.1
          omega
  · simp only [hg, if_false] at h
    simp only [Option.some.injEq, Prod.mk.injEq] at h
    rw [← h.2]
    simp only [buffer_invariant]
    rw [hu] at hg ⊢
    have := hinv.1
    omega

/-- What `elf_buffer_remaining` does on every buffer: at the end of the buffer it returns 0
and keeps the record; before the end it releases the record and returns no value. -/
theorem elf_buffer_remaining_cases (b : elf_buffer_t) :
    (b.pos ≥ b.size → elf_buffer_remaining b = (some 0, some b)) ∧
      (b.pos < b.size → elf_buffer_remaining b = (none, none)) := by
  unfold elf_buffer_remaining
  by_cases h : b.pos ≥ b.size
  · have h' : ¬ b.pos < b.size := by omega
    simp [h, h']
  · have h' : b.pos < b.size := by omega
    simp [h, h']

/-- C7, the code at a failing input: on the buffer with `size = 4`, `pos = 2`, a read of
`count = 4` bytes asks for two bytes past the logical size (`pos + count > size`), yet
`elf_read_bytes` returns `ELF_OK`, copies `data[2 .. 6)` (two of them never written) and moves
`pos` to 6. -/
theorem elf_read_bytes_past_size :
    magic_buffer.pos + 4 > magic_buffer.size ∧
      elf_read_bytes magic_buffer [0, 0, 0, 0] 4 =
        (ELF_OK, { magic_buffer with pos := 6 }, [0x4C, 0x46, 0xAA, 0xBB]) := by
  decide

/-- C8, the code at a failing input: the buffer `elf_buffer_new(16)` creates satisfies
`pos ≤ size ≤ capacity`; `elf_read_bytes` with `count = 1` succeeds on it and leaves
`pos = 1 > size = 0`, so the invariant is lost. -/
theorem elf_read_bytes_breaks_invariant :
    elf_buffer_new true (some (List.replicate 16 0)) 16 = some fresh_buffer ∧
      buffer_invariant fresh_buffer ∧
      (elf_read_bytes fresh_buffer [0] 1).1 = ELF_OK ∧
      (elf_read_bytes fresh_buffer [0] 1).2.1.pos = 1 ∧
      ¬ buffer_invariant (elf_read_bytes fresh_buffer [0] 1).2.1 := by
  decide

/-- C9: `elf_read_byte` fails with `ELF_ERR_EOF` exactly when `pos ≥ size`, and then leaves
the buffer (and the output byte) unchanged; otherwise it returns `data[pos]` and increases
`pos` by exactly 1 with `data`, `size` and `capacity` unchanged.  `elf_peek_byte` returns the
same status and the same byte and leaves the whole buffer, the cursor included, unchanged. -/
theorem elf_read_byte_spec (b : elf_buffer_t) (out : uint8_t) (hsz : b.size < 2 ^ 64) :
    ((elf_read_byte b out).1 = ELF_ERR_EOF ↔ b.pos ≥ b.size) ∧
      (b.pos ≥ b.size → elf_read_byte b out = (ELF_ERR_EOF, b, out)) ∧
      (b.pos < b.size →
        elf_read_byte b out =
          (ELF_OK, { data := b.data, size := b.size, capacity := b.capacity, pos := b.pos + 1 },
            b.data.getD b.pos 0)) ∧
      (elf_peek_byte b out).1 = (elf_read_byte b out).1 ∧
      (elf_peek_byte b out).2.2 = (elf_read_byte b out).2.2 ∧
      (elf_peek_byte b out).2.1 = b := by
  unfold elf_read_byte elf_peek_byte
  by_cases h : b.pos ≥ b.size
  · have h' : ¬ b.pos < b.size := by omega
    simp [h, h']
  · have hu : u64 (b.pos + 1) = b.pos + 1 := u64_of_lt _ (by omega)
    have h' : b.pos < b.size := by omega
    simp [h, h', hu]

theorem elf_read_byte_spec_witness :
    ((elf_read_byte magic_buffer 0).1 = ELF_ERR_EOF ↔ magic_buffer.pos ≥ magic_buffer.size) ∧
      (magic_buffer.pos ≥ magic_buffer.size →
        elf_read_byte magic_buffer 0 = (ELF_ERR_EOF, magic_buffer, 0)) ∧
      (magic_buffer.pos < magic_buffer.size →
        elf_read_byte magic_buffer 0 =
          (ELF_OK,
            { data := magic_buffer.data, size := magic_buffer.size,
              capacity := magic_buffer.capacity, pos := magic_buffer.pos + 1 },
            magic_buffer.data.getD magic_buffer.pos 0)) ∧
      (elf_peek_byte magic_buffer 0).1 = (elf_read_byte magic_buffer 0).1 ∧
      (elf_peek_byte magic_buffer 0).2.2 = (elf_read_byte magic_buffer 0).2.2 ∧
      (elf_peek_byte magic_buffer 0).2.1 = magic_buffer :=
  elf_read_byte_spec magic_buffer 0 (by decide)

/-- C10, the code at a failing input: on a buffer with `pos = 2 < size = 4`, where the
claim says the call returns 2 and changes nothing, `elf_buffer_remaining` releases the
buffer record with `free` and reaches the end of its body without returning a value.  Only
when `pos ≥ size` does it return (0) and keep the buffer. -/
theorem elf_buffer_remaining_frees :
    magic_buffer.pos < magic_buffer.size ∧
      elf_buffer_remaining magic_buffer = (none, none) ∧
      elf_buffer_remaining (elf_buffer_seek magic_buffer 4) =
        (some 0, some (elf_buffer_seek magic_buffer 4)) := by
  decide

/-! ## Cursor moves, signature test and growth failures -/

/-- C11: `elf_buffer_seek` sets `pos` to `offset` when `offset ≤ size` and otherwise leaves
the buffer entirely unchanged; in both cases `data`, `size` and `capacity` are unchanged;
`elf_buffer_reset` sets `pos` to 0 and changes nothing else. -/
theorem elf_buffer_seek_reset_spec (b : elf_buffer_t) (offset : Nat) :
    (offset ≤ b.size →
        elf_buffer_seek b offset =
          { data := b.data, size := b.size, capacity := b.capacity, pos := offset }) ∧
      (¬ offset ≤ b.size → elf_buffer_seek b offset = b) ∧
      (elf_buffer_seek b offset).data = b.data ∧
      (elf_buffer_seek b offset).size = b.size ∧
      (elf_buffer_seek b offset).capacity = b.capacity ∧
      elf_buffer_reset b = { data := b.data, size := b.size, capacity := b.capacity, pos := 0 } := by
  unfold elf_buffer_seek elf_buffer_reset
  by_cases h : offset ≤ b.size <;> simp [h]

theorem elf_buffer_seek_reset_spec_witness :
    elf_buffer_seek magic_buffer 4 = { magic_buffer with pos := 4 } ∧
      elf_buffer_seek magic_buffer 5 = magic_buffer ∧
      elf_buffer_reset magic_buffer = { magic_buffer with pos := 0 } :=
  ⟨(elf_buffer_seek_reset_spec magic_buffer 4).1 (by decide),
    (elf_buffer_seek_reset_spec magic_buffer 5).2.1 (by decide),
    (elf_buffer_seek_reset_spec magic_buffer 0).2.2.2.2.2⟩

/-- The outcome of the signature test on a buffer whose written bytes lie in its
allocation. -/
theorem validate_magic_cases (b : elf_buffer_t) (hdata : b.size ≤ b.data.length) :
    (4 ≤ b.size ∧ byte_range b.data 0 4 = elf_magic →
        elf_validate_magic_trace (some b) = (ELF_OK, [0, 1, 2, 3])) ∧
      (¬ (4 ≤ b.size ∧ byte_range b.data 0 4 = elf_magic) →
        (elf_validate_magic_trace (some b)).1 = ELF_ERR_INVALID) ∧
      (∀ i ∈ (elf_validate_magic_trace (some b)).2, i < b.size) := by
  unfold elf_validate_magic_trace
  by_cases hs : b.size < 4
  · have h4 : ¬ 4 ≤ b.size := by omega
    simp [hs, h4]
  · have hm := magic_iff b.data (by omega)
    have h4 : 4 ≤ b.size := by omega
    simp only [hs, if_false, hm, h4, true_and]
    by_cases h0 : byte_at b.data 0 = 0x7F
    · by_cases h1 : byte_at b.data 1 = 0x45
      · by_cases h2 : byte_at b.data 2 = 0x4C
        · by_cases h3 : byte_at b.data 3 = 0x46
          · simp [h0, h1, h2, h3]; omega
          · simp [h0, h1, h2, h3]; omega
        · simp [h0, h1, h2]; omega
      · simp [h0, h1]; omega
    · simp [h0]; omega

/-- C12: `elf_validate_magic` returns `ELF_OK` if and only if `size ≥ 4` and the first four
bytes are `0x7F 'E' 'L' 'F'`; in every other case, a buffer of fewer than 4 bytes and the
NULL buffer included, it returns `ELF_ERR_INVALID`; every index it reads is below `size`;
`elf_is_elf` is true exactly when `elf_validate_magic` returns `ELF_OK`. -/
theorem elf_validate_magic_spec (b : elf_buffer_t) (hdata : b.size ≤ b.data.length) :
    (elf_validate_magic (some b) = ELF_OK ↔ 4 ≤ b.size ∧ byte_range b.data 0 4 = elf_magic) ∧
      (¬ (4 ≤ b.size ∧ byte_range b.data 0 4 = elf_magic) →
        elf_validate_magic (some b) = ELF_ERR_INVALID) ∧
      (b.size < 4 → elf_validate_magic (some b) = ELF_ERR_INVALID ∧
        (elf_validate_magic_trace (some b)).2 = []) ∧
      elf_validate_magic none = ELF_ERR_INVALID ∧
      (∀ i ∈ (elf_validate_magic_trace (some b)).2, i < b.size) ∧
      (elf_is_elf (some b) = true ↔ elf_validate_magic (some b) = ELF_OK) ∧
      (elf_is_elf none = true ↔ elf_validate_magic none = ELF_OK) := by
  obtain ⟨hok, hbad, hreads⟩ := validate_magic_cases b hdata
  refine ⟨?_, hbad, ?_, rfl, hreads, ?_, ?_⟩
  · constructor
    · intro h
      by_contra hc
      have := hbad hc
      unfold elf_validate_magic at h
      rw [h] at this
      cases this
    · intro h
      unfold elf_validate_magic
      rw [hok h]
  · intro hs
    have hc : ¬ (4 ≤ b.size ∧ byte_range b.data 0 4 = elf_magic) := fun h => by omega
    refine ⟨hbad hc, ?_⟩
    simp [elf_validate_magic_trace, hs]
  · simp [elf_is_elf]
  · simp [elf_is_elf]

theorem elf_validate_magic_spec_witness :
    elf_validate_magic (some magic_buffer) = ELF_OK ∧
      elf_is_elf (some magic_buffer) = true :=
  ⟨(elf_validate_magic_spec magic_buffer (by decide)).1.2 ⟨by decide, by decide⟩,
    (elf_validate_magic_spec magic_buffer (by decide)).2.2.2.2.2.1.2
      ((elf_validate_magic_spec magic_buffer (by decide)).1.2 ⟨by decide, by decide⟩)⟩

/-- The doubling loop leaves through `return ELF_ERR_READ` only at a capacity that is above
the ceiling and still below the target. -/
theorem expand_loop_ceiling (target : Nat) :
    ∀ (fuel c : Nat), expand_loop target fuel c = some none →
      ∃ c', c ≤ c' ∧ MAX < c' ∧ c' < target := by
  intro fuel
  induction fuel with
  | zero => intro c h; simp [expand_loop] at h
  | succ n ih =>
    intro c h
    unfold expand_loop at h
    by_cases h1 : c < target
    · by_cases h2 : c > MAX
      · exact ⟨c, Nat.le_refl c, h2, h1⟩
      · simp only [h1, h2, if_true, if_false] at h
        have hM : c ≤ 2 ^ 30 := by unfold MAX at h2; omega
        rw [u64_of_lt _ (by omega)] at h
        obtain ⟨c', hc, hm, ht⟩ := ih _ h
        exact ⟨c', by omega, hm, ht⟩
    · simp [h1] at h

theorem sub64_of_le (a b : Nat) (hab : b ≤ a) (ha : a < 2 ^ 64) : sub64 a b = a - b := by
  unfold sub64
  rw [Nat.mod_eq_of_lt (by omega : b < 2 ^ 64)]
  omega

/-- On at least 56 readable bytes `phdr_parse` succeeds and writes the entry the
specification describes. -/
theorem phdr_parse_at (d : List uint8_t) (off size : Nat) (o : phdr_t) (h56 : 56 ≤ size)
    (hlen : off + 56 ≤ d.length) :
    phdr_parse (some (d.drop off)) size (some o) = (PHDR_OK, some (spec_phdr d off)) := by
  have hs : ¬ size < PHDR_SIZE_64 := by unfold PHDR_SIZE_64; omega
  simp only [phdr_parse, hs, if_false, List.drop_drop, spec_phdr, Nat.add_zero,
    read_u32_le_drop d off (by omega), read_u32_le_drop d (off + 4) (by omega),
    read_u64_le_drop d (off + 8) (by omega), read_u64_le_drop d (off + 16) (by omega),
    read_u64_le_drop d (off + 24) (by omega), read_u64_le_drop d (off + 32) (by omega),
    read_u64_le_drop d (off + 40) (by omega), read_u64_le_drop d (off + 48) (by omega)]

/-- With at least 56 bytes announced `phdr_parse` succeeds, whatever the bytes are. -/
theorem phdr_parse_ok (d : List uint8_t) (size : Nat) (o : phdr_t) (h56 : 56 ≤ size) :
    ∃ p, phdr_parse (some d) size (some o) = (PHDR_OK, some p) := by
  have hs : ¬ size < PHDR_SIZE_64 := by unfold PHDR_SIZE_64; omega
  simp [phdr_parse, hs]

theorem phdr_validate_ok_iff (p : phdr_t) : phdr_validate (some p) = PHDR_OK ↔ phdr_entry_ok p := by
  unfold phdr_validate phdr_entry_ok PT_HIPROC
  by_cases h1 : p.p_filesz > p.p_memsz
  · simp [h1]
  · by_cases h2 : p.p_type > 0x7fffffff
    · simp [h1, h2]
    · simp [h1, h2]; omega

/-- The status of an entry that is not valid: the size error comes first. -/
theorem phdr_validate_bad (p : phdr_t) (h : ¬ phdr_entry_ok p) :
    phdr_validate (some p) = if p.p_filesz > p.p_memsz then PHDR_ERR_SIZE else PHDR_ERR_TYPE := by
  unfold phdr_validate PT_HIPROC
  unfold phdr_entry_ok at h
  by_cases h1 : p.p_filesz > p.p_memsz
  · simp [h1]
  · have h2 : p.p_type > 0x7fffffff := by omega
    simp [h1, h2]

theorem phdr_validate_ne_offset (p : Option phdr_t) : phdr_validate p ≠ PHDR_ERR_OFFSET := by
  unfold phdr_validate
  cases p with
  | none => simp
  | some p =>
    by_cases h1 : p.p_filesz > p.p_memsz
    · simp [h1]
    · by_cases h2 : p.p_type > PT_HIPROC <;> simp [h1, h2]

theorem table_status_cons (p : phdr_t) (rest : List phdr_t) :
    table_status (p :: rest) =
      if phdr_validate (some p) = PHDR_OK then table_status rest else phdr_validate (some p) := by
  unfold phdr_validate PT_HIPROC
  by_cases h1 : p.p_filesz > p.p_memsz
  · simp [table_status, h1]
  · by_cases h2 : p.p_type > 0x7fffffff <;> simp [table_status, h1, h2]

theorem table_status_ok_iff (l : List phdr_t) :
    table_status l = PHDR_OK ↔ ∀ p ∈ l, phdr_entry_ok p := by
  induction l with
  | nil => simp [table_status]
  | cons p rest ih =>
    rw [table_status_cons]
    by_cases h : phdr_validate (some p) = PHDR_OK
    · have hp := (phdr_validate_ok_iff p).1 h
      simp [h, ih, hp]
    · have hp : ¬ phdr_entry_ok p := fun hp => h ((phdr_validate_ok_iff p).2 hp)
      simp [h, hp]

theorem table_status_ne_offset (l : List phdr_t) : table_status l ≠ PHDR_ERR_OFFSET := by
  induction l with
  | nil => simp [table_status]
  | cons p rest ih =>
    rw [table_status_cons]
    by_cases h : phdr_validate (some p) = PHDR_OK
    · simpa [h] using ih
    · simpa [h] using phdr_validate_ne_offset (some p)

/-- The arithmetic of one loop iteration does not wrap when the table fits in the buffer. -/
theorem loop_offsets (size phoff total i : Nat) (hfit : phoff + 56 * total ≤ size)
    (hsz : size < 2 ^ 64) (hi : i < total) :
    u64 (phoff + u64 (i * 56)) = phoff + 56 * i ∧
      ¬ u64 (phoff + 56 * i + PHDR_SIZE_64) > size ∧
      sub64 size (phoff + 56 * i) = size - (phoff + 56 * i) ∧
      56 ≤ size - (phoff + 56 * i) := by
  have h1 : u64 (i * 56) = i * 56 := u64_of_lt _ (by omega)
  have h2 : u64 (phoff + i * 56) = phoff + i * 56 := u64_of_lt _ (by omega)
  have h3 : u64 (phoff + 56 * i + 56) = phoff + 56 * i + 56 := u64_of_lt _ (by omega)
  refine ⟨by rw [h1, h2]; omega, ?_, sub64_of_le _ _ (by omega) hsz, by omega⟩
  unfold PHDR_SIZE_64
  rw [h3]
  omega

/-- The loop of `phdr_parse_all` on a table that fits in the buffer: its status is the one
the specification assigns to the remaining entries, and when that is `PHDR_OK` the loop
has appended exactly those entries. -/
theorem phdr_parse_loop_spec (b : elf_buffer_t) (slot : phdr_t) (phoff total : Nat)
    (hfit : phoff + 56 * total ≤ b.size) (hsz : b.size < 2 ^ 64)
    (hlen : b.size ≤ b.data.length) :
    ∀ (n i : Nat) (acc : List phdr_t), i + n = total →
      (phdr_parse_loop b phoff 56 slot n i acc).1 =
          table_status ((List.range' i n).map (fun j => spec_phdr b.data (phoff + 56 * j))) ∧
        (table_status ((List.range' i n).map (fun j => spec_phdr b.data (phoff + 56 * j))) =
            PHDR_OK →
          phdr_parse_loop b phoff 56 slot n i acc =
            (PHDR_OK, acc ++ (List.range' i n).map (fun j => spec_phdr b.data (phoff + 56 * j)))) := by
  intro n
  induction n with
  | zero => intro i acc _; simp [phdr_parse_loop, table_status]
  | succ n ih =>
    intro i acc hin
    obtain ⟨ho, hc, hsub, h56⟩ := loop_offsets b.size phoff total i hfit hsz (by omega)
    have hp := phdr_parse_at b.data (phoff + 56 * i) (b.size - (phoff + 56 * i)) slot h56
      (by omega)
    have ih' := ih (i + 1) (acc ++ [spec_phdr b.data (phoff + 56 * i)]) (by omega)
    simp only [phdr_parse_loop, ho, hc, if_false, hsub, hp, List.range'_succ, List.map_cons,
      table_status_cons]
    by_cases hv : phdr_validate (some (spec_phdr b.data (phoff + 56 * i))) = PHDR_OK
    · simp only [hv, ne_eq, not_true_eq_false, if_false, if_true]
      refine ⟨ih'.1, fun hok => ?_⟩
      rw [ih'.2 hok]
      simp
    · simp [hv]

/-- The loop never ends with the offset error on a table that fits in the buffer, whatever
the buffer holds. -/
theorem phdr_parse_loop_ne_offset (b : elf_buffer_t) (slot : phdr_t) (phoff total : Nat)
    (hfit : phoff + 56 * total ≤ b.size) (hsz : b.size < 2 ^ 64) :
    ∀ (n i : Nat) (acc : List phdr_t), i + n = total →
      (phdr_parse_loop b phoff 56 slot n i acc).1 ≠ PHDR_ERR_OFFSET := by
  intro n
  induction n with
  | zero => intro i acc _; simp [phdr_parse_loop]
  | succ n ih =>
    intro i acc hin
    obtain ⟨ho, hc, hsub, h56⟩ := loop_offsets b.size phoff total i hfit hsz (by omega)
    obtain ⟨p, hp⟩ := phdr_parse_ok (b.data.drop (phoff + 56 * i)) (b.size - (phoff + 56 * i))
      slot h56
    simp only [phdr_parse_loop, ho, hc, if_false, hsub, hp]
    by_cases hv : phdr_validate (some p) = PHDR_OK
    · simp only [hv, ne_eq, not_true_eq_false, if_false]
      exact ih (i + 1) (acc ++ [p]) (by omega)
    · simp only [ne_eq, hv, not_false_eq_true, if_true]
      exact phdr_validate_ne_offset (some p)

/-- The three table-level comparisons, in wrap-around arithmetic, decide whether the exact
span of the table exceeds the buffer; the sum they compare does not wrap once the first two
have passed. -/
theorem table_checks (size phoff phnum ent : Nat) (hsz : size < 2 ^ 63) (hent : ent ≠ 0) :
    ((phoff > size ∨ phnum > size / ent ∨ u64 (phoff + u64 (phnum * ent)) > size) ↔
        phoff + phnum * ent > size) ∧
      (phoff ≤ size → phnum ≤ size / ent →
        u64 (phoff + u64 (phnum * ent)) = phoff + phnum * ent) := by
  have hpos : 0 < ent := Nat.pos_of_ne_zero hent
  have hdiv : phnum ≤ size / ent ↔ phnum * ent ≤ size := Nat.le_div_iff_mul_le hpos
  generalize phnum * ent = m at hdiv ⊢
  have hno : phoff ≤ size → m ≤ size → u64 (phoff + u64 m) = phoff + m := by
    intro h1 h2
    rw [u64_of_lt m (by omega), u64_of_lt _ (by omega)]
  refine ⟨?_, fun h1 h2 => hno h1 (hdiv.1 h2)⟩
  constructor
  · rintro (h | h | h)
    · omega
    · have : ¬ m ≤ size := fun hm => by have := hdiv.2 hm; omega
      omega
    · by_cases h1 : phoff ≤ size
      · by_cases h2 : m ≤ size
        · rw [hno h1 h2] at h; exact h
        · omega
      · omega
  · intro h
    by_cases h1 : phoff ≤ size
    · by_cases h2 : m ≤ size
      · right; right; rw [hno h1 h2]; exact h
      · right; left
        by_contra hc
        exact h2 (hdiv.1 (by omega))
    · left; omega

/-- The whole decoder on a table that fits in the buffer, with entry size 56 and a
successful allocation: it delivers the table when every entry is valid and otherwise returns
the status of the first entry that is not, leaving both out-parameters as they were. -/
theorem phdr_parse_all_table (slot : phdr_t) (b : elf_buffer_t) (h : elf_header_t)
    (outp : Option (List phdr_t)) (outc : Nat) (hsz : b.size < 2 ^ 64)
    (hlen : b.size ≤ b.data.length) (hfit : h.e_phoff + 56 * h.e_phnum ≤ b.size)
    (hent : h.e_phentsize = 56) :
    phdr_parse_all (some slot) (some b) (some h) (some outp) (some outc) =
      some (if table_status (spec_table b.data h.e_phoff h.e_phnum) = PHDR_OK then
          (PHDR_OK, some (some (spec_table b.data h.e_phoff h.e_phnum)), some h.e_phnum)
        else (table_status (spec_table b.data h.e_phoff h.e_phnum), some outp, some outc)) := by
  have c1 : ¬ h.e_phoff > b.size := by omega
  have c2 : ¬ h.e_phnum > b.size / 56 := by
    have : h.e_phnum ≤ b.size / 56 := (Nat.le_div_iff_mul_le (by decide)).2 (by omega)
    omega
  have c3 : ¬ u64 (h.e_phoff + u64 (h.e_phnum * 56)) > b.size := by
    rw [u64_of_lt (h.e_phnum * 56) (by omega), u64_of_lt _ (by omega)]
    omega
  obtain ⟨hst, hok⟩ :=
    phdr_parse_loop_spec b slot h.e_phoff h.e_phnum hfit hsz hlen h.e_phnum 0 [] (by omega)
  rw [← List.range_eq_range'] at hst hok
  change (phdr_parse_loop b h.e_phoff 56 slot h.e_phnum 0 []).1 =
    table_status (spec_table b.data h.e_phoff h.e_phnum) at hst
  change table_status (spec_table b.data h.e_phoff h.e_phnum) = PHDR_OK →
    phdr_parse_loop b h.e_phoff 56 slot h.e_phnum 0 [] =
      (PHDR_OK, [] ++ spec_table b.data h.e_phoff h.e_phnum) at hok
  simp only [phdr_parse_all, c1, if_false, hent, c2, c3, PHDR_SIZE_64, ne_eq, not_true_eq_false,
    OfNat.ofNat_ne_zero]
  by_cases ht : table_status (spec_table b.data h.e_phoff h.e_phnum) = PHDR_OK
  · rw [hok ht, if_pos ht]
    simp
  · rw [if_neg ht]
    rcases hl : phdr_parse_loop b h.e_phoff 56 slot h.e_phnum 0 [] with ⟨st, l⟩
    rw [hl] at hst
    simp only at hst
    rw [← hst] at ht ⊢
    cases st <;> simp at ht ⊢

/-- A table whose exact span exceeds the buffer is rejected with the offset error by one of
the three table-level comparisons, whatever the allocator would answer. -/
theorem phdr_parse_all_span_too_large (storage : Option phdr_t) (b : elf_buffer_t)
    (h : elf_header_t) (outp : Option (List phdr_t)) (outc : Nat) (hsz : b.size < 2 ^ 63)
    (hent : h.e_phentsize ≠ 0) (hspan : h.e_phoff + h.e_phnum * h.e_phentsize > b.size) :
    phdr_parse_all storage (some b) (some h) (some outp) (some outc) =
      some (PHDR_ERR_OFFSET, some outp, some outc) := by
  have hchk := ((table_checks b.size h.e_phoff h.e_phnum h.e_phentsize hsz hent).1).2 hspan
  simp only [phdr_parse_all, hent, if_false]
  by_cases c1 : h.e_phoff > b.size
  · simp [c1]
  · by_cases c2 : h.e_phnum > b.size / h.e_phentsize
    · simp [c1, c2]
    · have c3 : u64 (h.e_phoff + u64 (h.e_phnum * h.e_phentsize)) > b.size := by
        rcases hchk with h1 | h1 | h1
        · exact absurd h1 c1
        · exact absurd h1 c2
        · exact h1
      simp [c1, c2, c3]

/-- A table whose exact span fits in the buffer passes the three table-level comparisons;
the call then never ends with the offset error. -/
theorem phdr_parse_all_span_fits (storage : Option phdr_t) (b : elf_buffer_t)
    (h : elf_header_t) (outp : Option (List phdr_t)) (outc : Nat) (hsz : b.size < 2 ^ 63)
    (hent : h.e_phentsize ≠ 0) (hspan : h.e_phoff + h.e_phnum * h.e_phentsize ≤ b.size) :
    ∃ r, phdr_parse_all storage (some b) (some h) (some outp) (some outc) = some r ∧
      r.1 ≠ PHDR_ERR_OFFSET := by
  have hchk := (table_checks b.size h.e_phoff h.e_phnum h.e_phentsize hsz hent).1
  have c1 : ¬ h.e_phoff > b.size := fun hc => by have := hchk.1 (Or.inl hc); omega
  have c2 : ¬ h.e_phnum > b.size / h.e_phentsize := fun hc => by
    have := hchk.1 (Or.inr (Or.inl hc)); omega
  have c3 : ¬ u64 (h.e_phoff + u64 (h.e_phnum * h.e_phentsize)) > b.size := fun hc => by
    have := hchk.1 (Or.inr (Or.inr hc)); omega
  simp only [phdr_parse_all, hent, if_false, c1, c2, c3]
  by_cases h56 : h.e_phentsize = PHDR_SIZE_64
  · cases storage with
    | none => simp [h56]
    | some slot =>
      have hfit : h.e_phoff + 56 * h.e_phnum ≤ b.size := by
        rw [h56] at hspan; unfold PHDR_SIZE_64 at hspan; omega
      have hne := phdr_parse_loop_ne_offset b slot h.e_phoff h.e_phnum hfit (by omega)
        h.e_phnum 0 [] (by omega)
      simp only [h56, ne_eq, not_true_eq_false, if_false]
      unfold PHDR_SIZE_64
      rcases hl : phdr_parse_loop b h.e_phoff 56 slot h.e_phnum 0 [] with ⟨st, l⟩
      rw [hl] at hne
      cases st <;> simp at hne ⊢
  · simp [h56]

/-- A zero entry size with the table offset inside the buffer leads to the division by
zero. -/
theorem phdr_parse_all_zero_entsize (storage : Option phdr_t) (b : elf_buffer_t)
    (h : elf_header_t) (outp : Option (List phdr_t)) (outc : Nat) (hoff : h.e_phoff ≤ b.size)
    (hent : h.e_phentsize = 0) :
    phdr_parse_all storage (some b) (some h) (some outp) (some outc) = none := by
  have c1 : ¬ h.e_phoff > b.size := by omega
  simp [phdr_parse_all, c1, hent]

/-- C14: for every buffer and header with `e_phentsize = 56`: if the table ends exactly at
the buffer's logical size (`e_phoff + e_phnum * 56 = size`) and every entry is structurally
valid, `phdr_parse_all` returns `PHDR_OK` (with the table and its count); if the table ends
one byte beyond (`e_phoff + e_phnum * 56 = size + 1`) it returns `PHDR_ERR_OFFSET`. -/
theorem phdr_parse_all_boundary (slot : phdr_t) (b : elf_buffer_t) (h : elf_header_t)
    (outp : Option (List phdr_t)) (outc : Nat) (hsz : b.size < 2 ^ 63)
    (hlen : b.size ≤ b.data.length) (hent : h.e_phentsize = 56) :
    (h.e_phoff + h.e_phnum * 56 = b.size →
        (∀ p ∈ spec_table b.data h.e_phoff h.e_phnum, phdr_entry_ok p) →
        phdr_parse_all (some slot) (some b) (some h) (some outp) (some outc) =
          some (PHDR_OK, some (some (spec_table b.data h.e_phoff h.e_phnum)),
            some h.e_phnum)) ∧
      (h.e_phoff + h.e_phnum * 56 = b.size + 1 →
        phdr_parse_all (some slot) (some b) (some h) (some outp) (some outc) =
          some (PHDR_ERR_OFFSET, some outp, some outc)) := by
  constructor
  · intro heq hvalid
    rw [phdr_parse_all_table slot b h outp outc (by omega) hlen (by omega) hent,
      if_pos ((table_status_ok_iff _).2 hvalid)]
  · intro heq
    exact phdr_parse_all_span_too_large (some slot) b h outp outc hsz (by omega)
      (by rw [hent]; omega)

/-- C15: with `size_t` arithmetic wrapping at `2^64`, for every buffer of size below `2^63`
and every header with nonzero `e_phentsize`, `phdr_parse_all` returns a status, and that
status is `PHDR_ERR_OFFSET` if and only if the exact value
`e_phoff + e_phnum * e_phentsize` exceeds the buffer size; the sum compared by the third
check does not wrap once the first two checks have passed. -/
theorem phdr_parse_all_offset_iff (storage : Option phdr_t) (b : elf_buffer_t)
    (h : elf_header_t) (outp : Option (List phdr_t)) (outc : Nat) (hsz : b.size < 2 ^ 63)
    (hent : h.e_phentsize ≠ 0) :
    (∃ r, phdr_parse_all storage (some b) (some h) (some outp) (some outc) = some r ∧
        (r.1 = PHDR_ERR_OFFSET ↔ h.e_phoff + h.e_phnum * h.e_phentsize > b.size)) ∧
      (h.e_phoff ≤ b.size → h.e_phnum ≤ b.size / h.e_phentsize →
        u64 (h.e_phoff + u64 (h.e_phnum * h.e_phentsize)) =
          h.e_phoff + h.e_phnum * h.e_phentsize) := by
  refine ⟨?_, (table_checks b.size h.e_phoff h.e_phnum h.e_phentsize hsz hent).2⟩
  by_cases hspan : h.e_phoff + h.e_phnum * h.e_phentsize > b.size
  · exact ⟨_, phdr_parse_all_span_too_large storage b h outp outc hsz hent hspan, by simp [hspan]⟩
  · obtain ⟨r, hr, hne⟩ :=
      phdr_parse_all_span_fits storage b h outp outc hsz hent (by omega)
    exact ⟨r, hr, by simp [hne, hspan]⟩

/-- C16, the code at a failing input: for the buffer holding the sample header
(`e_phoff = 0 ≤ size`, `e_phentsize = 0`) the claim says `phdr_parse_all` returns
`PHDR_ERR_OFFSET`; the code has no test of the entry size before the division and evaluates
`size / 0`. -/
theorem phdr_parse_all_divides_by_zero :
    (parsed_header sample_header).e_phentsize = 0 ∧
      (parsed_header sample_header).e_phoff ≤ (buffer_of sample_header).size ∧
      phdr_parse_all (some phdr_zero) (some (buffer_of sample_header))
        (some (parsed_header sample_header)) (some none) (some 0) = none := by
  decide

/-- The entry-size guard: once the three table-level comparisons have passed, an entry
size other than 56 ends the call with the size error before anything is allocated. -/
theorem phdr_entsize_guard (storage : Option phdr_t) (b : elf_buffer_t)
    (h : elf_header_t) (outp : Option (List phdr_t)) (outc : Nat)
    (hent0 : h.e_phentsize ≠ 0) (h1 : h.e_phoff ≤ b.size)
    (h2 : h.e_phnum ≤ b.size / h.e_phentsize)
    (h3 : u64 (h.e_phoff + u64 (h.e_phnum * h.e_phentsize)) ≤ b.size)
    (h56 : h.e_phentsize ≠ 56) :
    phdr_parse_all storage (some b) (some h) (some outp) (some outc) =
      some (PHDR_ERR_SIZE, some outp, some outc) := by
  have c1 : ¬ h.e_phoff > b.size := by omega
  have c2 : ¬ h.e_phnum > b.size / h.e_phentsize := by omega
  have c3 : ¬ u64 (h.e_phoff + u64 (h.e_phnum * h.e_phentsize)) > b.size := by omega
  simp [phdr_parse_all, hent0, c1, c2, c3, PHDR_SIZE_64, h56]

/-- C17: for every buffer and header that pass the three table-bounds checks
(`e_phoff ≤ size`, `e_phnum ≤ size / e_phentsize` with a nonzero divisor, and the sum of the
third check not above `size`) but have `e_phentsize` different from 56, `phdr_parse_all`
returns `PHDR_ERR_SIZE` and writes neither the output sequence nor the output count. -/
theorem phdr_parse_all_bad_entsize (storage : Option phdr_t) (b : elf_buffer_t)
    (h : elf_header_t) (outp : Option (List phdr_t)) (outc : Nat)
    (hent0 : h.e_phentsize ≠ 0) (h1 : h.e_phoff ≤ b.size)
    (h2 : h.e_phnum ≤ b.size / h.e_phentsize)
    (h3 : u64 (h.e_phoff + u64 (h.e_phnum * h.e_phentsize)) ≤ b.size)
    (h56 : h.e_phentsize ≠ 56) :
    phdr_parse_all storage (some b) (some h) (some outp) (some outc) =
      some (PHDR_ERR_SIZE, some outp, some outc) :=
  phdr_entsize_guard storage b h outp outc hent0 h1 h2 h3 h56

/-- C18, as amended: for every buffer and every header (those that `elf_header_parse`
accepts from that buffer included) with `e_phnum = 0`, `e_phoff ≤ size` and
`e_phentsize = 56`, `phdr_parse_all` returns `PHDR_OK` with an empty sequence and output
count 0, once the allocation of the array has succeeded. -/
theorem phdr_parse_all_empty_table (slot : phdr_t) (b : elf_buffer_t) (h : elf_header_t)
    (outp : Option (List phdr_t)) (outc : Nat)
    (hnum : h.e_phnum = 0) (hoff : h.e_phoff ≤ b.size) (hent : h.e_phentsize = 56) :
    phdr_parse_all (some slot) (some b) (some h) (some outp) (some outc) =
      some (PHDR_OK, some (some []), some 0) := by
  have c1 : ¬ h.e_phoff > b.size := by omega
  have c3 : ¬ u64 h.e_phoff > b.size := by
    have : u64 h.e_phoff ≤ h.e_phoff := Nat.mod_le _ _
    omega
  simp only [phdr_parse_all, c1, c3, hnum, hent, PHDR_SIZE_64, phdr_parse_loop, if_false,
    Nat.zero_mul, Nat.add_zero, ne_eq, not_true_eq_false, OfNat.ofNat_ne_zero, Nat.zero_div,
    Nat.lt_irrefl, gt_iff_lt, show u64 0 = 0 from rfl, Nat.not_lt_zero]

theorem phdr_parse_all_empty_table_witness :
    elf_header_parse (some (header_with 54 56)) 64 (some elf_header_zero) =
        (ELF_HDR_OK, some (parsed_header (header_with 54 56))) ∧
      phdr_parse_all (some phdr_zero) (some (buffer_of (header_with 54 56)))
          (some (parsed_header (header_with 54 56))) (some none) (some 7) =
        some (PHDR_OK, some (some []), some 0) :=
  ⟨by decide,
    phdr_parse_all_empty_table phdr_zero (buffer_of (header_with 54 56))
      (parsed_header (header_with 54 56)) none 7 (by decide) (by decide) (by decide)⟩

/-- C18 as written fails: the 64-byte header with magic, class 2, encoding 1, version 1,
type 2, machine 62, `e_phentsize = 64` and every other field zero is accepted by
`elf_header_parse` and has `e_phnum = 0`, yet `phdr_parse_all` on the same buffer returns
`PHDR_ERR_SIZE` and writes neither output. -/
theorem phdr_parse_all_empty_table_counterexample :
    elf_header_parse (some (header_with 54 64)) 64 (some elf_header_zero) =
        (ELF_HDR_OK, some (parsed_header (header_with 54 64))) ∧
      (parsed_header (header_with 54 64)).e_phnum = 0 ∧
      phdr_parse_all (some phdr_zero) (some (buffer_of (header_with 54 64)))
          (some (parsed_header (header_with 54 64))) (some none) (some 7) =
        some (PHDR_ERR_SIZE, some none, some 7) := by
  decide

/-- Entry `i` of the specification's table is the decoding at offset `phoff + 56 * i`. -/
theorem spec_table_get (d : List uint8_t) (phoff phnum i : Nat) (hi : i < phnum) :
    (spec_table d phoff phnum)[i]? = some (spec_phdr d (phoff + 56 * i)) := by
  simp [spec_table, List.getElem?_range hi]

/-- C19: whenever `phdr_parse_all` returns `PHDR_OK`, the output count equals `e_phnum` and
the output sequence has, at every index `i < e_phnum`, the decoding of the 56 bytes at buffer
offset `e_phoff + 56 * i`: `p_type`, `p_flags` the little-endian `u32` at `+0`, `+4` and
`p_offset`, `p_vaddr`, `p_paddr`, `p_filesz`, `p_memsz`, `p_align` the little-endian `u64` at
`+8 .. +48`, whatever the header's encoding byte is. -/
theorem phdr_parse_all_ok_entries (storage : Option phdr_t) (b : elf_buffer_t)
    (h : elf_header_t) (outp : Option (List phdr_t)) (outc : Nat)
    (rp : Option (Option (List phdr_t))) (rc : Option Nat) (hsz : b.size < 2 ^ 63)
    (hlen : b.size ≤ b.data.length)
    (hres : phdr_parse_all storage (some b) (some h) (some outp) (some outc) =
      some (PHDR_OK, rp, rc)) :
    rc = some h.e_phnum ∧
      ∃ l, rp = some (some l) ∧ l.length = h.e_phnum ∧
        ∀ i, i < h.e_phnum → l[i]? = some (spec_phdr b.data (h.e_phoff + 56 * i)) := by
  have hent : h.e_phentsize ≠ 0 := by
    intro h0
    by_cases c1 : h.e_phoff > b.size
    · simp [phdr_parse_all, c1] at hres
    · rw [phdr_parse_all_zero_entsize storage b h outp outc (by omega) h0] at hres
      cases hres
  have hspan : h.e_phoff + h.e_phnum * h.e_phentsize ≤ b.size := by
    by_contra hc
    rw [phdr_parse_all_span_too_large storage b h outp outc hsz hent (by omega)] at hres
    simp at hres
  have hchk := (table_checks b.size h.e_phoff h.e_phnum h.e_phentsize hsz hent).1
  have h56 : h.e_phentsize = 56 := by
    by_contra hc
    have c1 : h.e_phoff ≤ b.size := by
      by_contra hx; have := hchk.1 (Or.inl (by omega)); omega
    have c2 : h.e_phnum ≤ b.size / h.e_phentsize := by
      by_contra hx; have := hchk.1 (Or.inr (Or.inl (by omega))); omega
    have c3 : u64 (h.e_phoff + u64 (h.e_phnum * h.e_phentsize)) ≤ b.size := by
      by_contra hx; have := hchk.1 (Or.inr (Or.inr (by omega))); omega
    rw [phdr_entsize_guard storage b h outp outc hent c1 c2 c3 hc] at hres
    simp at hres
  have hfit : h.e_phoff + 56 * h.e_phnum ≤ b.size := by rw [h56] at hspan; omega
  cases storage with
  | none =>
    have c1 : ¬ h.e_phoff > b.size := by omega
    have c2 : ¬ h.e_phnum > b.size / 56 := by
      have : h.e_phnum ≤ b.size / 56 := (Nat.le_div_iff_mul_le (by decide)).2 (by omega)
      omega
    have c3 : ¬ u64 (h.e_phoff + u64 (h.e_phnum * 56)) > b.size := by
      rw [u64_of_lt (h.e_phnum * 56) (by omega), u64_of_lt _ (by omega)]
      omega
    simp [phdr_parse_all, c1, c2, c3, h56, PHDR_SIZE_64] at hres
  | some slot =>
    rw [phdr_parse_all_table slot b h outp outc (by omega) hlen hfit h56] at hres
    by_cases ht : table_status (spec_table b.data h.e_phoff h.e_phnum) = PHDR_OK
    · simp only [ht, if_true, Option.some.injEq, Prod.mk.injEq, true_and] at hres
      refine ⟨hres.2.symm, spec_table b.data h.e_phoff h.e_phnum, hres.1.symm, ?_, ?_⟩
      · simp [spec_table]
      · intro i hi
        exact spec_table_get b.data h.e_phoff h.e_phnum i hi
    · simp only [ht, if_false, Option.some.injEq, Prod.mk.injEq] at hres
      exact hres.1.elim

/-- C20: for every buffer and header that pass the four table-level checks,
`phdr_parse_all` succeeds if and only if every entry has `p_filesz ≤ p_memsz` and
`p_type ≤ 0x7fffffff`, and then delivers the table and its count; otherwise it returns the
status of the first offending entry in table order (`PHDR_ERR_SIZE` if that entry has
`p_filesz > p_memsz`, else `PHDR_ERR_TYPE`) and writes neither the output sequence nor the
output count. -/
theorem phdr_parse_all_entries (slot : phdr_t) (b : elf_buffer_t) (h : elf_header_t)
    (outp : Option (List phdr_t)) (outc : Nat) (hsz : b.size < 2 ^ 63)
    (hlen : b.size ≤ b.data.length) (h1 : h.e_phoff ≤ b.size)
    (h2 : h.e_phnum ≤ b.size / h.e_phentsize)
    (h3 : u64 (h.e_phoff + u64 (h.e_phnum * h.e_phentsize)) ≤ b.size)
    (hent : h.e_phentsize = 56) :
    ((∃ rp rc, phdr_parse_all (some slot) (some b) (some h) (some outp) (some outc) =
          some (PHDR_OK, rp, rc)) ↔
        ∀ p ∈ spec_table b.data h.e_phoff h.e_phnum, phdr_entry_ok p) ∧
      ((∀ p ∈ spec_table b.data h.e_phoff h.e_phnum, phdr_entry_ok p) →
        phdr_parse_all (some slot) (some b) (some h) (some outp) (some outc) =
          some (PHDR_OK, some (some (spec_table b.data h.e_phoff h.e_phnum)),
            some h.e_phnum)) ∧
      (¬ (∀ p ∈ spec_table b.data h.e_phoff h.e_phnum, phdr_entry_ok p) →
        phdr_parse_all (some slot) (some b) (some h) (some outp) (some outc) =
            some (table_status (spec_table b.data h.e_phoff h.e_phnum), some outp, some outc) ∧
          (table_status (spec_table b.data h.e_phoff h.e_phnum) = PHDR_ERR_SIZE ∨
            table_status (spec_table b.data h.e_phoff h.e_phnum) = PHDR_ERR_TYPE)) := by
  have hent0 : h.e_phentsize ≠ 0 := by omega
  have hfit : h.e_phoff + 56 * h.e_phnum ≤ b.size := by
    have hchk := (table_checks b.size h.e_phoff h.e_phnum h.e_phentsize hsz hent0).1
    by_contra hc
    have hspan : h.e_phoff + h.e_phnum * h.e_phentsize > b.size := by rw [hent]; omega
    rcases hchk.2 hspan with hx | hx | hx <;> omega
  have hall := phdr_parse_all_table slot b h outp outc (by omega) hlen hfit hent
  have hiff := table_status_ok_iff (spec_table b.data h.e_phoff h.e_phnum)
  have hkinds : ∀ l : List phdr_t, table_status l = PHDR_OK ∨ table_status l = PHDR_ERR_SIZE ∨
      table_status l = PHDR_ERR_TYPE := by
    intro l
    induction l with
    | nil => simp [table_status]
    | cons p rest ih =>
      unfold table_status
      by_cases a1 : p.p_filesz > p.p_memsz
      · simp [a1]
      · by_cases a2 : p.p_type > 0x7fffffff
        · simp [a1, a2]
        · simpa [a1, a2] using ih
  refine ⟨?_, ?_, ?_⟩
  · constructor
    · rintro ⟨rp, rc, hres⟩
      rw [hall] at hres
      by_cases ht : table_status (spec_table b.data h.e_phoff h.e_phnum) = PHDR_OK
      · exact hiff.1 ht
      · simp only [ht, if_false, Option.some.injEq, Prod.mk.injEq] at hres
        exact hres.1.elim
    · intro hv
      exact ⟨_, _, by rw [hall, if_pos (hiff.2 hv)]⟩
  · intro hv
    rw [hall, if_pos (hiff.2 hv)]
  · intro hv
    have ht : table_status (spec_table b.data h.e_phoff h.e_phnum) ≠ PHDR_OK :=
      fun hc => hv (hiff.1 hc)
    refine ⟨by rw [hall, if_neg ht], ?_⟩
    rcases hkinds (spec_table b.data h.e_phoff h.e_phnum) with hk | hk | hk
    · exact absurd hk ht
    · exact Or.inl hk
    · exact Or.inr hk

/-! ### Concrete tables -/

section ConcreteTables

set_option maxRecDepth 100000

theorem phdr_parse_all_boundary_witness :
    phdr_parse_all (some phdr_zero) (some (buffer_of good_file))
          (some (parsed_header good_file)) (some none) (some 0) =
        some (PHDR_OK,
          some (some (spec_table (buffer_of good_file).data (parsed_header good_file).e_phoff
            (parsed_header good_file).e_phnum)),
          some (parsed_header good_file).e_phnum) ∧
      phdr_parse_all (some phdr_zero) (some (buffer_of good_file.dropLast))
          (some (parsed_header good_file)) (some none) (some 0) =
        some (PHDR_ERR_OFFSET, some none, some 0) :=
  ⟨(phdr_parse_all_boundary phdr_zero (buffer_of good_file) (parsed_header good_file) none 0
      (by decide) (by decide) (by decide)).1 (by decide) (by decide),
    (phdr_parse_all_boundary phdr_zero (buffer_of good_file.dropLast)
      (parsed_header good_file) none 0 (by decide) (by decide) (by decide)).2 (by decide)⟩

theorem phdr_parse_all_offset_iff_witness :
    (∃ r, phdr_parse_all (some phdr_zero) (some (buffer_of good_file))
          (some (parsed_header (good_file.set 56 3))) (some none) (some 0) = some r ∧
        (r.1 = PHDR_ERR_OFFSET ↔
          (parsed_header (good_file.set 56 3)).e_phoff +
              (parsed_header (good_file.set 56 3)).e_phnum *
                (parsed_header (good_file.set 56 3)).e_phentsize >
            (buffer_of good_file).size)) :=
  (phdr_parse_all_offset_iff (some phdr_zero) (buffer_of good_file)
    (parsed_header (good_file.set 56 3)) none 0 (by decide) (by decide)).1

theorem phdr_parse_all_bad_entsize_witness :
    phdr_parse_all (some phdr_zero) (some (buffer_of (header_with 54 64)))
        (some (parsed_header (header_with 54 64))) (some none) (some 7) =
      some (PHDR_ERR_SIZE, some none, some 7) :=
  phdr_parse_all_bad_entsize (some phdr_zero) (buffer_of (header_with 54 64))
    (parsed_header (header_with 54 64)) none 7 (by decide) (by decide) (by decide) (by decide)
    (by decide)

theorem phdr_parse_all_ok_entries_witness :
    some 2 = some (parsed_header good_file).e_phnum ∧
      ∃ l, some (some (spec_table good_file 64 2)) = some (some l) ∧
        l.length = (parsed_header good_file).e_phnum ∧
        ∀ i, i < (parsed_header good_file).e_phnum →
          l[i]? = some (spec_phdr (buffer_of good_file).data
            ((parsed_header good_file).e_phoff + 56 * i)) :=
  phdr_parse_all_ok_entries (some phdr_zero) (buffer_of good_file) (parsed_header good_file)
    none 0 (some (some (spec_table good_file 64 2))) (some 2) (by decide) (by decide)
    (by decide)

theorem phdr_parse_all_entries_witness :
    phdr_parse_all (some phdr_zero) (some (buffer_of bad_size_file))
          (some (parsed_header bad_size_file)) (some none) (some 0) =
        some (table_status (spec_table (buffer_of bad_size_file).data
          (parsed_header bad_size_file).e_phoff (parsed_header bad_size_file).e_phnum),
          some none, some 0) ∧
      table_status (spec_table (buffer_of bad_size_file).data
        (parsed_header bad_size_file).e_phoff (parsed_header bad_size_file).e_phnum) =
          PHDR_ERR_SIZE :=
  ⟨((phdr_parse_all_entries phdr_zero (buffer_of bad_size_file) (parsed_header bad_size_file)
      none 0 (by decide) (by decide) (by decide) (by decide) (by decide)
      (by decide)).2.2 (by decide)).1,
    by decide⟩

end ConcreteTables

/-! ## The read primitives and their duplicates -/

/-- C21: on a byte sequence of sufficient length each of the six read primitives returns
the unsigned composition of its bytes (little-endian: byte `i` weighs `2^(8i)`; big-endian:
the first byte weighs most), every result is below `2^width`, and the static copies of
`phdr.c` and the fallbacks `elf_read_*` and `phdr_read_*` return the same values as the
readers of `elf_header.c` on every input. -/
theorem read_primitives_compose (b0 b1 b2 b3 b4 b5 b6 b7 : uint8_t) (rest : List uint8_t) :
    (read_u16_le (b0 :: b1 :: rest) = b0.val + 2 ^ 8 * b1.val ∧
        read_u16_be (b0 :: b1 :: rest) = 2 ^ 8 * b0.val + b1.val ∧
        read_u32_le (b0 :: b1 :: b2 :: b3 :: rest) =
          b0.val + 2 ^ 8 * b1.val + 2 ^ 16 * b2.val + 2 ^ 24 * b3.val ∧
        read_u32_be (b0 :: b1 :: b2 :: b3 :: rest) =
          2 ^ 24 * b0.val + 2 ^ 16 * b1.val + 2 ^ 8 * b2.val + b3.val ∧
        read_u64_le (b0 :: b1 :: b2 :: b3 :: b4 :: b5 :: b6 :: b7 :: rest) =
          b0.val + 2 ^ 8 * b1.val + 2 ^ 16 * b2.val + 2 ^ 24 * b3.val + 2 ^ 32 * b4.val +
            2 ^ 40 * b5.val + 2 ^ 48 * b6.val + 2 ^ 56 * b7.val ∧
        read_u64_be (b0 :: b1 :: b2 :: b3 :: b4 :: b5 :: b6 :: b7 :: rest) =
          2 ^ 56 * b0.val + 2 ^ 48 * b1.val + 2 ^ 40 * b2.val + 2 ^ 32 * b3.val +
            2 ^ 24 * b4.val + 2 ^ 16 * b5.val + 2 ^ 8 * b6.val + b7.val) ∧
      (∀ d : List uint8_t,
        read_u16_le d < 2 ^ 16 ∧ read_u16_be d < 2 ^ 16 ∧ read_u32_le d < 2 ^ 32 ∧
          read_u32_be d < 2 ^ 32 ∧ read_u64_le d < 2 ^ 64 ∧ read_u64_be d < 2 ^ 64) ∧
      (∀ d : List uint8_t,
        phdr_c.read_u32_le d = read_u32_le d ∧ phdr_c.read_u32_be d = read_u32_be d ∧
          phdr_c.read_u64_le d = read_u64_le d ∧ phdr_c.read_u64_be d = read_u64_be d ∧
          phdr_read_u32_le d = read_u32_le d ∧ phdr_read_u32_be d = read_u32_be d ∧
          phdr_read_u64_le d = read_u64_le d ∧ phdr_read_u64_be d = read_u64_be d ∧
          elf_read_u16_le d = read_u16_le d ∧ elf_read_u16_be d = read_u16_be d ∧
          elf_read_u32_le d = read_u32_le d ∧ elf_read_u32_be d = read_u32_be d ∧
          elf_read_u64_le d = read_u64_le d ∧ elf_read_u64_be d = read_u64_be d) := by
  refine ⟨⟨?_, ?_, ?_, ?_, ?_, ?_⟩, ?_, ?_⟩
  · rw [read_u16_le_eq]; rfl
  · rw [read_u16_be_eq]; rfl
  · rw [read_u32_le_eq]; rfl
  · rw [read_u32_be_eq]; rfl
  · rw [read_u64_le_eq]; rfl
  · rw [read_u64_be_eq]; rfl
  · intro d
    have h0 := byte_at_lt d 0
    have h1 := byte_at_lt d 1
    have h2 := byte_at_lt d 2
    have h3 := byte_at_lt d 3
    have h4 := byte_at_lt d 4
    have h5 := byte_at_lt d 5
    have h6 := byte_at_lt d 6
    have h7 := byte_at_lt d 7
    rw [read_u16_le_eq, read_u16_be_eq, read_u32_le_eq, read_u32_be_eq, read_u64_le_eq,
      read_u64_be_eq]
    refine ⟨by omega, by omega, by omega, by omega, by omega, by omega⟩
  · intro d
    exact ⟨rfl, rfl, rfl, rfl, rfl, rfl, rfl, rfl, rfl, rfl, rfl, rfl, rfl, rfl⟩

/-! ## The type check of `elf_header_parse` -/

/-- C22, as amended: for every input of at least 64 bytes with valid magic, class and
version whose decoded object type (little-endian when byte 5 is 1, big-endian otherwise) is
not one of 1, 2, 3, 4, `elf_header_parse` returns `ELF_HDR_ERR_TYPE`, and the type check
gates the extraction too: `e_ident`, `e_type` and `e_machine` hold their decoded values and
every remaining field of the output record is left as it was before the call. -/
theorem elf_header_parse_bad_type (d : List uint8_t) (size : Nat) (o : elf_header_t)
    (hsize : 64 ≤ size) (hlen : size ≤ d.length) (hmagic : byte_range d 0 4 = elf_magic)
    (hclass : byte_at d 4 = 2) (hver : byte_at d 6 = 1) :
    (byte_at d 5 = 1 → ¬ recognised_type (le_value (byte_range d 16 2)) →
        elf_header_parse (some d) size (some o) =
          (ELF_HDR_ERR_TYPE,
            some { e_ident := byte_range d 0 16
                   e_type := le_value (byte_range d 16 2)
                   e_machine := le_value (byte_range d 18 2)
                   e_version := o.e_version, e_entry := o.e_entry, e_phoff := o.e_phoff
                   e_shoff := o.e_shoff, e_flags := o.e_flags, e_ehsize := o.e_ehsize
                   e_phentsize := o.e_phentsize, e_phnum := o.e_phnum
                   e_shentsize := o.e_shentsize, e_shnum := o.e_shnum
                   e_shstrndx := o.e_shstrndx })) ∧
      (byte_at d 5 ≠ 1 → ¬ recognised_type (be_value (byte_range d 16 2)) →
        elf_header_parse (some d) size (some o) =
          (ELF_HDR_ERR_TYPE,
            some { e_ident := byte_range d 0 16
                   e_type := be_value (byte_range d 16 2)
                   e_machine := be_value (byte_range d 18 2)
                   e_version := o.e_version, e_entry := o.e_entry, e_phoff := o.e_phoff
                   e_shoff := o.e_shoff, e_flags := o.e_flags, e_ehsize := o.e_ehsize
                   e_phentsize := o.e_phentsize, e_phnum := o.e_phnum
                   e_shentsize := o.e_shentsize, e_shnum := o.e_shnum
                   e_shstrndx := o.e_shstrndx })) := by
  constructor
  · intro h5 ht
    have := hdr_decode_order d size o true hsize hlen hmagic hclass hver (by simp [h5])
    simp only [if_true] at this
    rw [this, if_neg ht]
  · intro h5 ht
    have := hdr_decode_order d size o false hsize hlen hmagic hclass hver (by simp [h5])
    simp only [Bool.false_eq_true, if_false] at this
    rw [this, if_neg ht]

theorem elf_header_parse_bad_type_witness :
    elf_header_parse (some unknown_type_header) 64 (some elf_header_zero) =
      (ELF_HDR_ERR_TYPE,
        some { e_ident := byte_range unknown_type_header 0 16
               e_type := le_value (byte_range unknown_type_header 16 2)
               e_machine := le_value (byte_range unknown_type_header 18 2)
               e_version := elf_header_zero.e_version, e_entry := elf_header_zero.e_entry
               e_phoff := elf_header_zero.e_phoff, e_shoff := elf_header_zero.e_shoff
               e_flags := elf_header_zero.e_flags, e_ehsize := elf_header_zero.e_ehsize
               e_phentsize := elf_header_zero.e_phentsize, e_phnum := elf_header_zero.e_phnum
               e_shentsize := elf_header_zero.e_shentsize, e_shnum := elf_header_zero.e_shnum
               e_shstrndx := elf_header_zero.e_shstrndx }) :=
  (elf_header_parse_bad_type unknown_type_header 64 elf_header_zero (by decide) (by decide)
    (by decide) (by decide) (by decide)).1 (by decide) (by decide)

/-- C22 as written fails: on the 64-byte input with valid magic, class, version, encoding 1,
object type 9 and `e_phentsize` bytes `38 00` (56), called with a cleared output record,
`elf_header_parse` returns `ELF_HDR_ERR_TYPE` and the record's `e_phentsize` is still 0, not
the decoded value 56 of its byte range. -/
theorem elf_header_parse_type_gate_counterexample :
    (64 ≤ unknown_type_header.length ∧ byte_range unknown_type_header 0 4 = elf_magic ∧
        byte_at unknown_type_header 4 = 2 ∧ byte_at unknown_type_header 6 = 1 ∧
        byte_at unknown_type_header 5 = 1 ∧
        ¬ recognised_type (le_value (byte_range unknown_type_header 16 2))) ∧
      (elf_header_parse (some unknown_type_header) 64 (some elf_header_zero)).1 =
        ELF_HDR_ERR_TYPE ∧
      le_value (byte_range unknown_type_header 54 2) = 56 ∧
      (elf_header_parse (some unknown_type_header) 64 (some elf_header_zero)).2.map
        (fun o => o.e_phentsize) = some 0 := by
  decide

/-! ## The defensive checks of the entry loop -/

/-- C23: for every buffer of size below `2^63` and every header that passes the four
table-level checks of `phdr_parse_all`, every entry index `i < e_phnum` satisfies
`e_phoff + 56 * i + 56 ≤ size`; the offset the loop computes for entry `i` is exactly
`e_phoff + 56 * i`, the per-entry test `offset + 56 > size` is false, the call of
`phdr_parse` the loop makes passes its size check and returns `PHDR_OK`, every byte of the
entry lies at an index below `size`, and the whole call never returns
`PHDR_ERR_OFFSET`. -/
theorem phdr_entry_checks_unreachable (slot : phdr_t) (b : elf_buffer_t) (h : elf_header_t)
    (hsz : b.size < 2 ^ 63) (h1 : h.e_phoff ≤ b.size)
    (h2 : h.e_phnum ≤ b.size / h.e_phentsize)
    (h3 : u64 (h.e_phoff + u64 (h.e_phnum * h.e_phentsize)) ≤ b.size)
    (hent : h.e_phentsize = 56) :
    (∀ i, i < h.e_phnum →
        h.e_phoff + 56 * i + 56 ≤ b.size ∧
          u64 (h.e_phoff + u64 (i * h.e_phentsize)) = h.e_phoff + 56 * i ∧
          ¬ u64 (u64 (h.e_phoff + u64 (i * h.e_phentsize)) + PHDR_SIZE_64) > b.size ∧
          ¬ sub64 b.size (u64 (h.e_phoff + u64 (i * h.e_phentsize))) < PHDR_SIZE_64 ∧
          (phdr_parse (some (b.data.drop (u64 (h.e_phoff + u64 (i * h.e_phentsize)))))
            (sub64 b.size (u64 (h.e_phoff + u64 (i * h.e_phentsize)))) (some slot)).1 =
              PHDR_OK ∧
          ∀ k, k < 56 → u64 (h.e_phoff + u64 (i * h.e_phentsize)) + k < b.size) ∧
      (∀ (storage : Option phdr_t) (outp : Option (List phdr_t)) (outc : Nat),
        ∃ r, phdr_parse_all storage (some b) (some h) (some outp) (some outc) = some r ∧
          r.1 ≠ PHDR_ERR_OFFSET) := by
  have hent0 : h.e_phentsize ≠ 0 := by omega
  have hfit : h.e_phoff + 56 * h.e_phnum ≤ b.size := by
    have hchk := (table_checks b.size h.e_phoff h.e_phnum h.e_phentsize hsz hent0).1
    by_contra hc
    have hspan : h.e_phoff + h.e_phnum * h.e_phentsize > b.size := by rw [hent]; omega
    rcases hchk.2 hspan with hx | hx | hx <;> omega
  constructor
  · intro i hi
    obtain ⟨ho, hc, hsub, h56⟩ :=
      loop_offsets b.size h.e_phoff h.e_phnum i hfit (by omega) hi
    rw [hent, ho, hsub]
    refine ⟨by omega, rfl, hc, ?_, ?_, fun k hk => by omega⟩
    · unfold PHDR_SIZE_64; omega
    · obtain ⟨p, hp⟩ := phdr_parse_ok (b.data.drop (h.e_phoff + 56 * i))
        (b.size - (h.e_phoff + 56 * i)) slot h56
      rw [hp]
  · intro storage outp outc
    exact phdr_parse_all_span_fits storage b h outp outc hsz hent0 (by rw [hent]; omega)

/-! ## The doubling loop: result and termination -/

/-- A successful doubling loop ends at the start capacity times a power of two, at or above
the target, and every capacity it passed through was below the target and not above the
ceiling. -/
theorem expand_loop_power (target : Nat) :
    ∀ (fuel c c' : Nat), expand_loop target fuel c = some (some c') →
      ∃ k, c' = c * 2 ^ k ∧ target ≤ c' ∧ ∀ j, j < k → c * 2 ^ j < target ∧ c * 2 ^ j ≤ MAX := by
  intro fuel
  induction fuel with
  | zero => intro c c' h; simp [expand_loop] at h
  | succ n ih =>
    intro c c' h
    unfold expand_loop at h
    by_cases h1 : c < target
    · by_cases h2 : c > MAX
      · simp [h1, h2] at h
      · simp only [h1, h2, if_true, if_false] at h
        have hM : c ≤ 2 ^ 30 := by unfold MAX at h2; omega
        rw [u64_of_lt _ (by omega)] at h
        obtain ⟨k, hk, ht, hmin⟩ := ih _ _ h
        refine ⟨k + 1, by rw [hk, Nat.pow_succ]; ring, ht, ?_⟩
        intro j hj
        cases j with
        | zero => simp only [Nat.pow_zero, Nat.mul_one]; exact ⟨h1, by omega⟩
        | succ j =>
          have := hmin j (by omega)
          have e : c * 2 ^ (j + 1) = c * 2 * 2 ^ j := by rw [Nat.pow_succ]; ring
          rw [e]; exact this
    · simp only [h1, if_false, Option.some.injEq] at h
      exact ⟨0, by simp [h], by omega, fun j hj => by omega⟩

/-- The loop has finished once the fuel suffices to double the start capacity past the
ceiling. -/
theorem expand_loop_finishes (target : Nat) :
    ∀ (fuel c : Nat), 1 ≤ fuel → MAX < c * 2 ^ (fuel - 1) →
      ∃ r, expand_loop target fuel c = some r := by
  intro fuel
  induction fuel with
  | zero => intro c h; omega
  | succ n ih =>
    intro c _ hc
    unfold expand_loop
    by_cases h1 : c < target
    · by_cases h2 : c > MAX
      · exact ⟨none, by simp [h1, h2]⟩
      · simp only [h1, h2, if_true, if_false]
        have hM : c ≤ 2 ^ 30 := by unfold MAX at h2; omega
        rw [u64_of_lt _ (by omega)]
        simp only [Nat.add_sub_cancel] at hc
        have hn : 1 ≤ n := by
          by_contra hn0
          have : n = 0 := by omega
          subst this
          simp at hc
          omega
        apply ih (c * 2) hn
        have e : c * 2 * 2 ^ (n - 1) = c * 2 ^ n := by
          obtain ⟨m, rfl⟩ : ∃ m, n = m + 1 := ⟨n - 1, by omega⟩
          simp only [Nat.add_sub_cancel, Nat.pow_succ]; ring
        rw [e]; exact hc
    · exact ⟨some c, by simp [h1]⟩

/-- More fuel does not change the result of a loop that has finished. -/
theorem expand_loop_more_fuel (target : Nat) :
    ∀ (fuel c : Nat) (r : Option Nat), expand_loop target fuel c = some r →
      ∀ m, expand_loop target (fuel + m) c = some r := by
  intro fuel
  induction fuel with
  | zero => intro c r h; simp [expand_loop] at h
  | succ n ih =>
    intro c r h m
    rw [show n + 1 + m = (n + m) + 1 by omega]
    unfold expand_loop at h ⊢
    by_cases h1 : c < target
    · by_cases h2 : c > MAX
      · simpa [h1, h2] using h
      · simp only [h1, h2, if_true, if_false] at h ⊢
        exact ih _ _ h m
    · simpa [h1] using h

/-- From capacity 0 the loop never ends while the target is positive. -/
theorem expand_loop_zero (target : Nat) (ht : 0 < target) :
    ∀ fuel, expand_loop target fuel 0 = none := by
  intro fuel
  induction fuel with
  | zero => simp [expand_loop]
  | succ n ih =>
    unfold expand_loop
    have h2 : ¬ 0 > MAX := by unfold MAX; omega
    simp only [ht, h2, if_true, if_false, Nat.zero_mul, show u64 0 = 0 from rfl]
    exact ih

theorem elf_buffer_new_capacity (struct_ok : Bool) (storage : Option (List uint8_t))
    (capacity : Nat) (b : elf_buffer_t)
    (h : elf_buffer_new struct_ok storage capacity = some b) : 1 ≤ b.capacity := by
  unfold elf_buffer_new at h
  cases struct_ok <;> cases storage <;> simp at h
  subst h
  by_cases hc : capacity = 0
  · simp [hc, INITIAL_CAPACITY]
  · simp only [hc, if_false]; omega

/-- The append step after a successful growth: with the storage `realloc` returned in
place, the chunk is copied behind the old contents inside the new block. -/
theorem append_after_expand (fuel : Nat) (heap : Option (List uint8_t)) (b b' : elf_buffer_t)
    (chunk : List uint8_t) (hfit : b.size + chunk.length < 2 ^ 64)
    (hgrow : b.capacity < b.size + chunk.length)
    (h : elf_buffer_expand fuel heap b chunk.length = some (ELF_OK, b'))
    (hsize : b'.size = b.size) (hpos : b'.pos = b.pos)
    (hroom : b.size + chunk.length ≤ b'.capacity) (hlen : b'.data.length = b'.capacity) :
    ∃ b'', elf_read_append fuel heap b chunk = some (ELF_OK, b'') ∧
      b''.size = b.size + chunk.length ∧ b''.capacity = b'.capacity ∧ b''.pos = b.pos ∧
      b''.data.length = b'.capacity ∧
      b''.data.take (b.size + chunk.length) = b'.data.take b.size ++ chunk := by
  have hu : u64 (b.size + chunk.length) = b.size + chunk.length := u64_of_lt _ hfit
  have hg : u64 (b.size + chunk.length) > b.capacity := by rw [hu]; omega
  refine ⟨{ b' with data := b'.data.take b'.size ++
                      memcpy (b'.data.drop b'.size) chunk chunk.length
                    size := u64 (b'.size + chunk.length) }, ?_, ?_, rfl, hpos, ?_, ?_⟩
  · simp only [elf_read_append, hg, if_true, h]
  · show u64 (b'.size + chunk.length) = b.size + chunk.length
    rw [hsize, hu]
  · show (b'.data.take b'.size ++ memcpy (b'.data.drop b'.size) chunk chunk.length).length =
      b'.capacity
    simp only [memcpy, List.length_append, List.length_take, List.length_drop, hsize, hlen]
    omega
  · show List.take (b.size + chunk.length)
        (b'.data.take b'.size ++ memcpy (b'.data.drop b'.size) chunk chunk.length) =
      b'.data.take b.size ++ chunk
    have hA : (b'.data.take b.size).length = b.size := by
      rw [List.length_take, hlen]; omega
    rw [hsize, memcpy, List.take_of_length_le (Nat.le_refl chunk.length), ← List.append_assoc]
    have hB : (b'.data.take b.size ++ chunk).length = b.size + chunk.length := by
      rw [List.length_append, hA]
    rw [← hB, List.take_left]

/-- C24: whenever `elf_buffer_expand(buf, needed)` succeeds (with `size + needed`
representable as a `size_t` and the written bytes inside the allocation), the new capacity is
the old capacity times the smallest power of two `2^k`, `k ≥ 0`, that makes it at least
`size + needed`; `size`, `pos` and the first `size` bytes of `data` are unchanged; the
buffer's storage is the block `realloc` returned, cut to the new capacity, and when that
block has the requested length the storage is exactly `capacity` bytes long and the
following append of `needed` bytes fits: it succeeds, puts the chunk right behind the old
contents inside the new block and leaves `size = size + needed ≤ capacity`. -/
theorem elf_buffer_expand_success (fuel : Nat) (heap : Option (List uint8_t))
    (b b' : elf_buffer_t) (needed : Nat) (hfit : b.size + needed < 2 ^ 64)
    (hdata : b.size ≤ b.data.length)
    (h : elf_buffer_expand fuel heap b needed = some (ELF_OK, b')) :
    (∃ k, b'.capacity = b.capacity * 2 ^ k ∧ b.size + needed ≤ b'.capacity ∧
        ∀ j, j < k → b.capacity * 2 ^ j < b.size + needed) ∧
      b'.size = b.size ∧ b'.pos = b.pos ∧ b'.data.take b.size = b.data.take b.size ∧
      ∃ fresh, heap = some fresh ∧ b'.data = (b.data ++ fresh).take b'.capacity ∧
        (b'.capacity ≤ b.data.length + fresh.length →
          b'.data.length = b'.capacity ∧
            ∀ chunk : List uint8_t, chunk.length = needed → b.capacity < b.size + needed →
              ∃ b'', elf_read_append fuel heap b chunk = some (ELF_OK, b'') ∧
                b''.size = b.size + needed ∧ b''.size ≤ b''.capacity ∧
                b''.capacity = b'.capacity ∧ b''.pos = b.pos ∧
                b''.data.length = b''.capacity ∧
                b''.data.take (b.size + needed) = b.data.take b.size ++ chunk) := by
  have h0 := h
  unfold elf_buffer_expand at h
  rw [u64_of_lt _ hfit] at h
  rcases hl : expand_loop (b.size + needed) fuel b.capacity with _ | _ | c
  · simp [hl] at h
  · simp [hl] at h
  · cases heap with
    | none => simp [hl] at h
    | some fresh =>
      simp only [hl, Option.some.injEq, Prod.mk.injEq, true_and] at h
      obtain ⟨k, hk, ht, hmin⟩ := expand_loop_power _ _ _ _ hl
      have htake : b'.data.take b.size = b.data.take b.size := by
        rw [← h]
        show List.take b.size (List.take c (b.data ++ fresh)) = List.take b.size b.data
        rw [List.take_take, Nat.min_eq_left (by omega), List.take_append_of_le_length hdata]
      have hcap : b'.capacity = c := by rw [← h]
      have hsize : b'.size = b.size := by rw [← h]
      have hpos : b'.pos = b.pos := by rw [← h]
      have hstore : b'.data = (b.data ++ fresh).take b'.capacity := by rw [← h]
      refine ⟨⟨k, by rw [hcap, hk], by rw [hcap]; exact ht,
        fun j hj => (hmin j hj).1⟩, hsize, hpos, htake, fresh, rfl, hstore, ?_⟩
      intro hblock
      have hlen : b'.data.length = b'.capacity := by
        rw [hstore, List.length_take, List.length_append]
        omega
      refine ⟨hlen, ?_⟩
      intro chunk hchunk hgrow
      subst hchunk
      obtain ⟨b'', ha, hs, hc, hp, hl'', htk⟩ :=
        append_after_expand fuel (some fresh) b b' chunk hfit hgrow h0 hsize hpos
          (by rw [hcap]; exact ht) hlen
      exact ⟨b'', ha, hs, by rw [hs, hc, hcap]; exact ht, hc, hp, by rw [hl'', hc],
        by rw [htk, htake]⟩

theorem elf_buffer_expand_success_witness :
    (∃ k, grown_buffer.capacity = magic_buffer.capacity * 2 ^ k ∧
        magic_buffer.size + 10 ≤ grown_buffer.capacity ∧
        ∀ j, j < k → magic_buffer.capacity * 2 ^ j < magic_buffer.size + 10) ∧
      grown_buffer.size = magic_buffer.size ∧ grown_buffer.pos = magic_buffer.pos ∧
      grown_buffer.data.take magic_buffer.size = magic_buffer.data.take magic_buffer.size ∧
      ∃ fresh, some (List.replicate 8 (0 : uint8_t)) = some fresh ∧
        grown_buffer.data = (magic_buffer.data ++ fresh).take grown_buffer.capacity ∧
        (grown_buffer.capacity ≤ magic_buffer.data.length + fresh.length →
          grown_buffer.data.length = grown_buffer.capacity ∧
            ∀ chunk : List uint8_t, chunk.length = 10 →
              magic_buffer.capacity < magic_buffer.size + 10 →
              ∃ b'', elf_read_append 5 (some (List.replicate 8 (0 : uint8_t))) magic_buffer
                    chunk = some (ELF_OK, b'') ∧
                b''.size = magic_buffer.size + 10 ∧ b''.size ≤ b''.capacity ∧
                b''.capacity = grown_buffer.capacity ∧ b''.pos = magic_buffer.pos ∧
                b''.data.length = b''.capacity ∧
                b''.data.take (magic_buffer.size + 10) =
                  magic_buffer.data.take magic_buffer.size ++ chunk) :=
  elf_buffer_expand_success 5 (some (List.replicate 8 0)) magic_buffer grown_buffer 10
    (by decide) (by decide) (by decide)

/-- The append of ten bytes to `magic_buffer`, when `realloc` delivers eight further bytes:
the buffer grows to capacity 16 and holds the four old bytes followed by the chunk. -/
theorem append_ten_bytes :
    elf_read_append 5 (some (List.replicate 8 0)) magic_buffer ten_bytes =
      some (ELF_OK,
        { data := [0x7F, 0x45, 0x4C, 0x46, 1, 2, 3, 4, 5, 6, 7, 8, 9, 10, 0, 0],
          size := 14, capacity := 16, pos := 2 }) := by
  decide

/-- C25: for every buffer whose capacity is at least 1 (as `elf_buffer_new` guarantees) and
every `needed`, the doubling loop of `elf_buffer_expand` has terminated within 32 tests of
its condition, that is after at most 31 doublings, either at a capacity at or above the
target or at the ceiling, and `elf_buffer_expand` returns; the loop runs forever exactly
when the capacity is 0 and the target `size + needed` (as a `size_t`) is positive. -/
theorem elf_buffer_expand_terminates (b : elf_buffer_t) (needed : Nat)
    (heap : Option (List uint8_t)) :
    (1 ≤ b.capacity →
        ∃ r, expand_loop (u64 (b.size + needed)) 32 b.capacity = some r ∧
          (∀ fuel, 32 ≤ fuel → expand_loop (u64 (b.size + needed)) fuel b.capacity = some r) ∧
          (∀ c', r = some c' →
            u64 (b.size + needed) ≤ c' ∧ ∃ k, k ≤ 31 ∧ c' = b.capacity * 2 ^ k) ∧
          (r = none → ∃ c', MAX < c' ∧ c' < u64 (b.size + needed)) ∧
          ∃ res, elf_buffer_expand 32 heap b needed = some res) ∧
      ((∀ fuel, expand_loop (u64 (b.size + needed)) fuel b.capacity = none) ↔
        (b.capacity = 0 ∧ 0 < u64 (b.size + needed))) ∧
      (b.size + needed < 2 ^ 64 → u64 (b.size + needed) = b.size + needed) ∧
      (∀ (struct_ok : Bool) (storage : Option (List uint8_t)) (capacity : Nat)
          (nb : elf_buffer_t),
        elf_buffer_new struct_ok storage capacity = some nb → 1 ≤ nb.capacity) := by
  have hterm : 1 ≤ b.capacity →
      ∃ r, expand_loop (u64 (b.size + needed)) 32 b.capacity = some r := by
    intro hcap
    apply expand_loop_finishes _ 32 b.capacity (by omega)
    show MAX < b.capacity * 2 ^ 31
    unfold MAX
    omega
  refine ⟨?_, ?_, fun hfit => u64_of_lt _ hfit, elf_buffer_new_capacity⟩
  · intro hcap
    obtain ⟨r, hr⟩ := hterm hcap
    refine ⟨r, hr, ?_, ?_, ?_, ?_⟩
    · intro fuel hf
      have := expand_loop_more_fuel _ 32 b.capacity r hr (fuel - 32)
      rwa [show 32 + (fuel - 32) = fuel by omega] at this
    · intro c' hc'
      subst hc'
      obtain ⟨k, hk, ht, hmin⟩ := expand_loop_power _ _ _ _ hr
      refine ⟨ht, k, ?_, hk⟩
      by_contra hk32
      have hprev := (hmin (k - 1) (by omega)).2
      have hpow : 2 ^ 31 ≤ 2 ^ (k - 1) := Nat.pow_le_pow_right (by decide) (by omega)
      have hmul : 1 * 2 ^ (k - 1) ≤ b.capacity * 2 ^ (k - 1) := Nat.mul_le_mul_right _ hcap
      unfold MAX at hprev
      omega
    · intro hnone
      subst hnone
      obtain ⟨c', _, hm, ht⟩ := expand_loop_ceiling _ _ _ hr
      exact ⟨c', hm, ht⟩
    · unfold elf_buffer_expand
      rw [hr]
      cases r with
      | none => exact ⟨_, rfl⟩
      | some c =>
        cases heap with
        | none => exact ⟨_, rfl⟩
        | some fresh => exact ⟨_, rfl⟩
  · constructor
    · intro hall
      by_cases hcap : 1 ≤ b.capacity
      · obtain ⟨r, hr⟩ := hterm hcap
        rw [hall 32] at hr
        cases hr
      · have h0 : b.capacity = 0 := by omega
        refine ⟨h0, ?_⟩
        by_contra ht
        have := hall 1
        rw [h0] at this
        simp [expand_loop, ht] at this
    · rintro ⟨h0, ht⟩ fuel
      rw [h0]
      exact expand_loop_zero _ ht fuel

theorem elf_buffer_expand_terminates_witness :
    ∃ r, expand_loop (u64 (magic_buffer.size + 10)) 32 magic_buffer.capacity = some r ∧
      (∀ fuel, 32 ≤ fuel →
        expand_loop (u64 (magic_buffer.size + 10)) fuel magic_buffer.capacity = some r) ∧
      (∀ c', r = some c' →
        u64 (magic_buffer.size + 10) ≤ c' ∧ ∃ k, k ≤ 31 ∧ c' = magic_buffer.capacity * 2 ^ k) ∧
      (r = none → ∃ c', MAX < c' ∧ c' < u64 (magic_buffer.size + 10)) ∧
      ∃ res, elf_buffer_expand 32 none magic_buffer 10 = some res :=
  (elf_buffer_expand_terminates magic_buffer 10 none).1 (by decide)

/-! ## The harness decoder against the library decoder -/

theorem test_read_u32_le_eq (d : List uint8_t) : test_c.read_u32_le d = read_u32_le d := by
  have h0 := byte_at_lt d 0
  have h1 := byte_at_lt d 1
  have h2 := byte_at_lt d 2
  have h3 := byte_at_lt d 3
  rw [read_u32_le_eq]
  unfold test_c.read_u32_le u32
  rw [lor_shl _ _ 8 (by omega), lor_shl _ _ 16 (by omega), lor_shl _ _ 24 (by omega)]
  omega

theorem test_read_u32_be_eq (d : List uint8_t) : test_c.read_u32_be d = read_u32_be d := by
  have h0 := byte_at_lt d 0
  have h1 := byte_at_lt d 1
  have h2 := byte_at_lt d 2
  have h3 := byte_at_lt d 3
  rw [read_u32_be_eq]
  unfold test_c.read_u32_be u32
  simp only [Nat.shiftLeft_eq]
  rw [shl_lor (byte_at d 0 * 2 ^ 24) (byte_at d 1 * 2 ^ 16) 24 (by omega) (by omega),
    shl_lor (byte_at d 0 * 2 ^ 24 + byte_at d 1 * 2 ^ 16) (byte_at d 2 * 2 ^ 8) 16
      (by omega) (by omega),
    shl_lor _ (byte_at d 3) 8 (by omega) (by omega)]
  omega

/-- The harness decoder written with the readers of the library. -/
theorem c_only_unfold (d : List uint8_t) (size : Nat) (o : elf_header_t) :
    elf_header_parse_c_only (some d) size (some o) =
      if size < 64 then (7, some o)
      else if byte_at d 0 ≠ 0x7F ∨ byte_at d 1 ≠ 0x45 ∨ byte_at d 2 ≠ 0x4C ∨
          byte_at d 3 ≠ 0x46 then (1, some o)
      else if byte_at d 4 ≠ 2 then (2, some o)
      else if byte_at d 5 ≠ 1 ∧ byte_at d 5 ≠ 2 then (3, some o)
      else if byte_at d 6 ≠ 1 then (4, some o)
      else if byte_at d 5 = 1 then
        (0, some { e_ident := d.take 16
                   e_type := read_u16_le (d.drop 16), e_machine := read_u16_le (d.drop 18)
                   e_version := read_u32_le (d.drop 20), e_entry := read_u64_le (d.drop 24)
                   e_phoff := read_u64_le (d.drop 32), e_shoff := read_u64_le (d.drop 40)
                   e_flags := read_u32_le (d.drop 48), e_ehsize := read_u16_le (d.drop 52)
                   e_phentsize := read_u16_le (d.drop 54), e_phnum := read_u16_le (d.drop 56)
                   e_shentsize := read_u16_le (d.drop 58), e_shnum := read_u16_le (d.drop 60)
                   e_shstrndx := read_u16_le (d.drop 62) })
      else
        (0, some { e_ident := d.take 16
                   e_type := read_u16_be (d.drop 16), e_machine := read_u16_be (d.drop 18)
                   e_version := read_u32_be (d.drop 20), e_entry := read_u64_be (d.drop 24)
                   e_phoff := read_u64_be (d.drop 32), e_shoff := read_u64_be (d.drop 40)
                   e_flags := read_u32_be (d.drop 48), e_ehsize := read_u16_be (d.drop 52)
                   e_phentsize := read_u16_be (d.drop 54), e_phnum := read_u16_be (d.drop 56)
                   e_shentsize := read_u16_be (d.drop 58), e_shnum := read_u16_be (d.drop 60)
                   e_shstrndx := read_u16_be (d.drop 62) }) := by
  have e1 : ∀ l, test_c.read_u16_le l = read_u16_le l := fun _ => rfl
  have e2 : ∀ l, test_c.read_u16_be l = read_u16_be l := fun _ => rfl
  have e3 : ∀ l, test_c.read_u64_le l = read_u64_le l := fun _ => rfl
  have e4 : ∀ l, test_c.read_u64_be l = read_u64_be l := fun _ => rfl
  simp only [elf_header_parse_c_only, e1, e2, e3, e4, test_read_u32_le_eq, test_read_u32_be_eq]

/-- The library decoder in the same form. -/
theorem hdr_unfold (d : List uint8_t) (size : Nat) (o : elf_header_t) :
    elf_header_parse (some d) size (some o) =
      if size < 64 then (ELF_HDR_ERR_SIZE, some o)
      else if byte_at d 0 ≠ 0x7F ∨ byte_at d 1 ≠ 0x45 ∨ byte_at d 2 ≠ 0x4C ∨
          byte_at d 3 ≠ 0x46 then (ELF_HDR_ERR_MAGIC, some o)
      else if byte_at d 4 ≠ 2 then (ELF_HDR_ERR_CLASS, some o)
      else if byte_at d 6 ≠ 1 then (ELF_HDR_ERR_VERSION, some o)
      else if byte_at d 5 = 1 then
        if ¬ recognised_type (read_u16_le (d.drop 16)) then
          (ELF_HDR_ERR_TYPE,
            some { o with e_ident := d.take 16, e_type := read_u16_le (d.drop 16)
                          e_machine := read_u16_le (d.drop 18) })
        else
          (ELF_HDR_OK,
            some { e_ident := d.take 16
                   e_type := read_u16_le (d.drop 16), e_machine := read_u16_le (d.drop 18)
                   e_version := read_u32_le (d.drop 20), e_entry := read_u64_le (d.drop 24)
                   e_phoff := read_u64_le (d.drop 32), e_shoff := read_u64_le (d.drop 40)
                   e_flags := read_u32_le (d.drop 48), e_ehsize := read_u16_le (d.drop 52)
                   e_phentsize := read_u16_le (d.drop 54), e_phnum := read_u16_le (d.drop 56)
                   e_shentsize := read_u16_le (d.drop 58), e_shnum := read_u16_le (d.drop 60)
                   e_shstrndx := read_u16_le (d.drop 62) })
      else
        if ¬ recognised_type (read_u16_be (d.drop 16)) then
          (ELF_HDR_ERR_TYPE,
            some { o with e_ident := d.take 16, e_type := read_u16_be (d.drop 16)
                          e_machine := read_u16_be (d.drop 18) })
        else
          (if byte_at d 5 = 2 then ELF_HDR_OK else ELF_HDR_ERR_ENCODING,
            some { e_ident := d.take 16
                   e_type := read_u16_be (d.drop 16), e_machine := read_u16_be (d.drop 18)
                   e_version := read_u32_be (d.drop 20), e_entry := read_u64_be (d.drop 24)
                   e_phoff := read_u64_be (d.drop 32), e_shoff := read_u64_be (d.drop 40)
                   e_flags := read_u32_be (d.drop 48), e_ehsize := read_u16_be (d.drop 52)
                   e_phentsize := read_u16_be (d.drop 54), e_phnum := read_u16_be (d.drop 56)
                   e_shentsize := read_u16_be (d.drop 58), e_shnum := read_u16_be (d.drop 60)
                   e_shstrndx := read_u16_be (d.drop 62) }) := by
  have c4 : ((byte_at d 4 : Nat) : Int) ≠ 2 ↔ byte_at d 4 ≠ 2 := by
    constructor <;> intro h <;> exact_mod_cast h
  have c6 : ((byte_at d 6 : Nat) : Int) ≠ 1 ↔ byte_at d 6 ≠ 1 := by
    constructor <;> intro h <;> exact_mod_cast h
  have c51 : ((byte_at d 5 : Nat) : Int) = 1 ↔ byte_at d 5 = 1 := by
    constructor <;> intro h <;> exact_mod_cast h
  have c52 : ((byte_at d 5 : Nat) : Int) = 2 ↔ byte_at d 5 = 2 := by
    constructor <;> intro h <;> exact_mod_cast h
  simp only [elf_header_parse, ELF_HEADER_64_SIZE, elf_header_get_class,
    elf_header_get_encoding, elf_header_get_version, ELFCLASS64, EV_CURRENT, ELFDATA2LSB,
    ELFDATA2MSB, c4, c6, c51, c52, ne_eq]
  by_cases hs : size < 64
  · simp [hs]
  by_cases hm : ¬byte_at d 0 = 0x7F ∨ ¬byte_at d 1 = 0x45 ∨ ¬byte_at d 2 = 0x4C ∨
      ¬byte_at d 3 = 0x46
  · simp only [hs, if_false, hm, if_true]
  by_cases h4 : byte_at d 4 = 2
  swap
  · simp only [hs, if_false, hm, h4, not_false_eq_true, if_true]
  by_cases h6 : byte_at d 6 = 1
  swap
  · simp only [hs, if_false, hm, h4, h6, not_false_eq_true, if_true, not_true_eq_false]
  by_cases h5 : byte_at d 5 = 1
  · have h52 : ¬ byte_at d 5 = 2 := by omega
    by_cases ht : recognised_type (read_u16_le (d.drop 16))
    · have ht' := ht
      unfold recognised_type at ht'
      have hn : ¬ (¬read_u16_le (d.drop 16) = ET_REL ∧ ¬read_u16_le (d.drop 16) = ET_EXEC ∧
          ¬read_u16_le (d.drop 16) = ET_DYN ∧ ¬read_u16_le (d.drop 16) = ET_CORE) := by tauto
      simp only [hs, if_false, hm, h4, h6, h5, not_true_eq_false, if_true, hn, ht,
        false_and]
    · have ht' := ht
      unfold recognised_type at ht'
      have hn : ¬read_u16_le (d.drop 16) = ET_REL ∧ ¬read_u16_le (d.drop 16) = ET_EXEC ∧
          ¬read_u16_le (d.drop 16) = ET_DYN ∧ ¬read_u16_le (d.drop 16) = ET_CORE := by tauto
      simp only [hs, if_false, hm, h4, h6, h5, not_true_eq_false, if_true, hn, ht,
        not_false_eq_true, and_self]
  · by_cases ht : recognised_type (read_u16_be (d.drop 16))
    · have ht' := ht
      unfold recognised_type at ht'
      have hn : ¬ (¬read_u16_be (d.drop 16) = ET_REL ∧ ¬read_u16_be (d.drop 16) = ET_EXEC ∧
          ¬read_u16_be (d.drop 16) = ET_DYN ∧ ¬read_u16_be (d.drop 16) = ET_CORE) := by tauto
      by_cases h52 : byte_at d 5 = 2
      · have h21 : ¬ ((2 : Nat) = 1) := by decide
        simp only [hs, if_false, hm, h4, h6, h5, not_true_eq_false, if_true, hn, ht, h52, h21,
          and_false, not_false_eq_true]
      · simp only [hs, if_false, hm, h4, h6, h5, not_true_eq_false, if_true, hn, ht, h52,
          not_false_eq_true, and_self]
    · have ht' := ht
      unfold recognised_type at ht'
      have hn : ¬read_u16_be (d.drop 16) = ET_REL ∧ ¬read_u16_be (d.drop 16) = ET_EXEC ∧
          ¬read_u16_be (d.drop 16) = ET_DYN ∧ ¬read_u16_be (d.drop 16) = ET_CORE := by tauto
      simp only [hs, if_false, hm, h4, h6, h5, not_true_eq_false, if_true, hn, ht,
        not_false_eq_true, and_self]

/-- Where the two decoders do agree: `elf_header_parse_c_only` returns the same status code
as `elf_header_parse` and leaves the same values in every field of the output header on every
input (bytes, length, output record) for which `elf_header_parse` returns `ELF_HDR_OK`,
`ELF_HDR_ERR_SIZE`, `ELF_HDR_ERR_MAGIC` or `ELF_HDR_ERR_CLASS`, and on those for which it
returns `ELF_HDR_ERR_VERSION` while the encoding byte is 1 or 2. -/
theorem elf_header_parse_c_only_agrees (data : Option (List uint8_t)) (size : Nat)
    (out : Option elf_header_t)
    (hst : (elf_header_parse data size out).1 = ELF_HDR_OK ∨
      (elf_header_parse data size out).1 = ELF_HDR_ERR_SIZE ∨
      (elf_header_parse data size out).1 = ELF_HDR_ERR_MAGIC ∨
      (elf_header_parse data size out).1 = ELF_HDR_ERR_CLASS ∨
      ((elf_header_parse data size out).1 = ELF_HDR_ERR_VERSION ∧
        ∃ d, data = some d ∧ (byte_at d 5 = 1 ∨ byte_at d 5 = 2))) :
    elf_header_parse_c_only data size out =
      ((elf_header_parse data size out).1.code, (elf_header_parse data size out).2) := by
  cases data with
  | none => cases out <;> rfl
  | some d =>
    cases out with
    | none => rfl
    | some o =>
      rw [c_only_unfold, hdr_unfold] at *
      by_cases hs : size < 64
      · simp only [hs, if_true]; rfl
      by_cases hm : byte_at d 0 ≠ 0x7F ∨ byte_at d 1 ≠ 0x45 ∨ byte_at d 2 ≠ 0x4C ∨
          byte_at d 3 ≠ 0x46
      · simp only [hs, if_false, hm, if_true]; rfl
      by_cases h4 : byte_at d 4 = 2
      swap
      · simp only [hs, if_false, hm, h4, ne_eq, not_false_eq_true, if_true]; rfl
      by_cases h6 : byte_at d 6 = 1
      swap
      · simp only [hs, if_false, hm, h4, h6, ne_eq, not_false_eq_true, if_true,
          not_true_eq_false] at hst ⊢
        have henc : byte_at d 5 = 1 ∨ byte_at d 5 = 2 := by
          rcases hst with h | h | h | h | ⟨_, d', hd, he⟩
          · cases h
          · cases h
          · cases h
          · cases h
          · cases hd; exact he
        have hn : ¬ (¬ byte_at d 5 = 1 ∧ ¬ byte_at d 5 = 2) := by tauto
        simp only [hn, if_false]; rfl
      by_cases h5 : byte_at d 5 = 1
      · have hn : ¬ (¬ byte_at d 5 = 1 ∧ ¬ byte_at d 5 = 2) := by tauto
        by_cases ht : recognised_type (read_u16_le (d.drop 16))
        · simp only [hs, if_false, hm, h4, h6, h5, ne_eq, not_true_eq_false, if_true, ht,
            false_and]
          rfl
        · simp [hs, hm, h4, h6, h5, ht] at hst
      · by_cases ht : recognised_type (read_u16_be (d.drop 16))
        · by_cases h52 : byte_at d 5 = 2
          · have h21 : ¬ ((2 : Nat) = 1) := by decide
            simp only [hs, if_false, hm, h4, h6, h52, h21, ne_eq, not_true_eq_false, if_true, ht,
              and_false, not_false_eq_true]
            rfl
          · simp [hs, hm, h4, h6, h5, h52, ht] at hst
        · simp [hs, hm, h4, h6, h5, ht] at hst

theorem elf_header_parse_c_only_agrees_witness :
    elf_header_parse_c_only (some sample_header) 64 (some elf_header_zero) =
      ((elf_header_parse (some sample_header) 64 (some elf_header_zero)).1.code,
        (elf_header_parse (some sample_header) 64 (some elf_header_zero)).2) :=
  elf_header_parse_c_only_agrees (some sample_header) 64 (some elf_header_zero)
    (Or.inl (by decide))

/-- C26, the code at failing inputs: on the 64-byte input with object type 9 and a cleared
output record, `elf_header_parse_c_only` has no type check, returns 0 (success) and writes
every field (`e_phentsize = 56`), where `elf_header_parse` returns `ELF_HDR_ERR_TYPE` (5)
and leaves `e_phentsize` at 0; on the input with encoding byte 0 the harness tests the
encoding first and returns 3 without writing, where the library returns
`ELF_HDR_ERR_TYPE` (5) after writing `e_ident`, `e_type` and `e_machine`. -/
theorem elf_header_parse_c_only_diverges :
    (elf_header_parse_c_only (some unknown_type_header) 64 (some elf_header_zero)).1 = 0 ∧
      (elf_header_parse (some unknown_type_header) 64 (some elf_header_zero)).1.code = 5 ∧
      (elf_header_parse_c_only (some unknown_type_header) 64 (some elf_header_zero)).2.map
        (fun o => o.e_phentsize) = some 56 ∧
      (elf_header_parse (some unknown_type_header) 64 (some elf_header_zero)).2.map
        (fun o => o.e_phentsize) = some 0 ∧
      (elf_header_parse_c_only (some unknown_encoding_header) 64 (some elf_header_zero)).1 = 3 ∧
      (elf_header_parse (some unknown_encoding_header) 64 (some elf_header_zero)).1.code = 5 ∧
      (elf_header_parse_c_only (some unknown_encoding_header) 64 (some elf_header_zero)).2 =
        some elf_header_zero ∧
      (elf_header_parse (some unknown_encoding_header) 64 (some elf_header_zero)).2 ≠
        some elf_header_zero := by
  decide

section ConcreteEntries

set_option maxRecDepth 100000

theorem phdr_entry_checks_unreachable_witness :
    (∀ i, i < (parsed_header good_file).e_phnum →
        (parsed_header good_file).e_phoff + 56 * i + 56 ≤ (buffer_of good_file).size ∧
          u64 ((parsed_header good_file).e_phoff +
            u64 (i * (parsed_header good_file).e_phentsize)) =
              (parsed_header good_file).e_phoff + 56 * i ∧
          ¬ u64 (u64 ((parsed_header good_file).e_phoff +
            u64 (i * (parsed_header good_file).e_phentsize)) + PHDR_SIZE_64) >
              (buffer_of good_file).size ∧
          ¬ sub64 (buffer_of good_file).size (u64 ((parsed_header good_file).e_phoff +
            u64 (i * (parsed_header good_file).e_phentsize))) < PHDR_SIZE_64 ∧
          (phdr_parse (some ((buffer_of good_file).data.drop
              (u64 ((parsed_header good_file).e_phoff +
                u64 (i * (parsed_header good_file).e_phentsize)))))
            (sub64 (buffer_of good_file).size (u64 ((parsed_header good_file).e_phoff +
              u64 (i * (parsed_header good_file).e_phentsize)))) (some phdr_zero)).1 =
              PHDR_OK ∧
          ∀ k, k < 56 →
            u64 ((parsed_header good_file).e_phoff +
              u64 (i * (parsed_header good_file).e_phentsize)) + k <
                (buffer_of good_file).size) ∧
      (∀ (storage : Option phdr_t) (outp : Option (List phdr_t)) (outc : Nat),
        ∃ r, phdr_parse_all storage (some (buffer_of good_file))
            (some (parsed_header good_file)) (some outp) (some outc) = some r ∧
          r.1 ≠ PHDR_ERR_OFFSET) :=
  phdr_entry_checks_unreachable phdr_zero (buffer_of good_file) (parsed_header good_file)
    (by decide) (by decide) (by decide) (by decide) (by decide)

end ConcreteEntries

end Lidl
